import Mathlib

/-
Verification development for the record-reconciliation engine of the wuke
repository.  The engine has two algorithmic cores:

  * src/test/merge.py   : normalization-based deterministic inner join of two
                          tabular record sets (dedup, first-set-wins).
  * src/test/verified.py: hierarchical identifier resolution against an
                          external compound registry (name, first alias,
                          subsequent aliases, direct id), advisory
                          cross-validation and per-field reconciliation.

The embedding below translates the relevant functions of those two scripts
into executable Lean definitions.  Table cells are modelled as Option String
(none models a missing/NaN cell; pandas astype(str) renders such a cell as
the string "nan", which the model reproduces where the source does).  The
external registry (pubchempy) is an oracle record of two total functions;
network failures are out of scope, a failed entity fetch is modelled by the
oracle returning none.  Character classes follow the ASCII fragment of the
Python regex classes used by the source.
-/

namespace Wuke

/-! ## Shared string and cell primitives -/

/-- A single table cell: none models a missing value (NaN). -/
abbrev Cell := Option String

/-- ASCII whitespace as matched by the Python class backslash-s and stripped
by str.strip. -/
def isPySpace (c : Char) : Bool :=
  c == ' ' || c == '\t' || c == '\n' || c == '\r' || c == '\x0b' || c == '\x0c'

/-- Strip of leading and trailing whitespace on a character list. -/
def stripChars (l : List Char) : List Char :=
  ((l.dropWhile isPySpace).reverse.dropWhile isPySpace).reverse

/-- Python str.strip(): drop leading and trailing whitespace. -/
def pyStrip (s : String) : String :=
  ⟨stripChars s.data⟩

/-- Python str.lower() on the ASCII fragment. -/
def pyLower (s : String) : String := ⟨s.data.map Char.toLower⟩

/-- Python str.split(sep) for a one-character separator: splits at every
occurrence, keeping empty pieces. -/
def splitOnSep (sep : Char) (l : List Char) : List (List Char) :=
  l.foldr
    (fun c acc =>
      if c = sep then [] :: acc
      else
        match acc with
        | [] => [[c]]
        | w :: ws => (c :: w) :: ws)
    [[]]

/-- Python str(cell) as applied by pandas astype(str): a NaN cell renders as
the literal string "nan". -/
def pyStrCell (c : Cell) : String :=
  match c with
  | none => "nan"
  | some s => s

/-- Strings for which Python float(s) yields NaN, making
math.isnan(float(s)) true inside is_nan_or_none. -/
def isNanStr (s : String) : Bool :=
  let t := pyLower (pyStrip s)
  t == "nan" || t == "+nan" || t == "-nan"

/-- is_nan_or_none from verified.py, restricted to string cells: a missing
cell or a string that float() parses to NaN. -/
def is_nan_or_none (c : Cell) : Bool :=
  match c with
  | none => true
  | some s => isNanStr s

/-- Numeric value of a list of decimal digit characters. -/
def digitsVal (l : List Char) : Nat :=
  l.foldl (fun a c => a * 10 + (c.toNat - 48)) 0

/-- Exponent part of a Python float literal: optional sign then a nonempty
run of digits consuming the whole remainder. -/
def parseExp (cs : List Char) : Option Int :=
  let sgn : Int := match cs with
    | '-' :: _ => -1
    | _ => 1
  let cs1 : List Char := match cs with
    | '+' :: r => r
    | '-' :: r => r
    | r => r
  if cs1 ≠ [] ∧ cs1.all Char.isDigit then some (sgn * (digitsVal cs1 : Int))
  else none

/-- Python float(s) on finite decimal literals, parsed exactly: optional
surrounding whitespace, optional sign, digits with an optional fractional
part and an optional decimal exponent.  The result is the exact decimal as
a mantissa and a power of ten (value = mant * 10 ^ ex); the binary rounding
of IEEE doubles, the special literals inf and nan and digit-group
underscores are out of scope of this embedding (the nan case is intercepted
earlier by is_nan_or_none at every call site modelled here). -/
def pyFloatParts? (s : String) : Option (Int × Int) :=
  let cs := (pyStrip s).toList
  let sgn : Int := match cs with
    | '-' :: _ => -1
    | _ => 1
  let cs1 : List Char := match cs with
    | '+' :: r => r
    | '-' :: r => r
    | r => r
  let ip := cs1.takeWhile Char.isDigit
  let rest1 := cs1.drop ip.length
  let fp : List Char := match rest1 with
    | '.' :: r => r.takeWhile Char.isDigit
    | _ => []
  let rest2 : List Char := match rest1 with
    | '.' :: r => r.drop (r.takeWhile Char.isDigit).length
    | r => r
  if ip.isEmpty && fp.isEmpty then none
  else
    let e? : Option Int := match rest2 with
      | [] => some 0
      | 'e' :: r => parseExp r
      | 'E' :: r => parseExp r
      | _ => none
    match e? with
    | none => none
    | some ex =>
      some (sgn * ((digitsVal (ip ++ fp) : Nat) : Int), ex - (fp.length : Int))

/-- Python int() of the exact decimal mant * 10 ^ e: truncation toward
zero (Nat division floors the absolute value, the sign is reattached). -/
def truncPow10 (mant e : Int) : Int :=
  match e with
  | Int.ofNat k => mant * ((10 ^ k : Nat) : Int)
  | Int.negSucc k => mant.sign * ((mant.natAbs / 10 ^ (k + 1) : Nat) : Int)

/-- get_valid_cid from verified.py: int(float(value)) when the cell is
neither missing/NaN nor blank, none when the conversion fails. -/
def get_valid_cid (c : Cell) : Option Int :=
  match c with
  | none => none
  | some s =>
    if isNanStr s then none
    else if pyStrip s = "" then none
    else (pyFloatParts? s).map (fun p => truncPow10 p.1 p.2)

/-- get_valid_cas from verified.py: the CAS_REGEX pattern, two to seven
digits, dash, two digits, dash, one digit, matched against the stripped
string; on success the stripped string is returned. -/
def get_valid_cas (s : String) : Option String :=
  let t := pyStrip s
  match splitOnSep '-' t.data with
  | [a, b, c] =>
    if 2 ≤ a.length && a.length ≤ 7 && a.all Char.isDigit
        && b.length == 2 && b.all Char.isDigit
        && c.length == 1 && c.all Char.isDigit
    then some t else none
  | _ => none

/-- get_valid_cas lifted to a cell: the source guards with isinstance(str),
so a missing cell yields none. -/
def getValidCasCell (c : Cell) : Option String :=
  match c with
  | none => none
  | some s => get_valid_cas s

/-! ## merge.py : normalization and the deterministic joiner -/

namespace DJoin

/-- The temporary canonical-key column added by prepare_for_merge. -/
def NORMALIZED_NAME_COLUMN : String := "_normalized_name_for_merge"

/-- Python word characters (ASCII fragment of the regex class backslash-w):
letters, digits and the underscore. -/
def isPyWord (c : Char) : Bool := c.isAlphanum || c == '_'

/-- The substitution replace of every character outside backslash-w and
backslash-s by the empty string. -/
def stripSymbols (l : List Char) : List Char :=
  l.filter (fun c => isPyWord c || isPySpace c)

/-- The substitution replacing each maximal run of whitespace by one space
(regex backslash-s+ to a single space), processed left to right with a flag
remembering whether the previous character was whitespace. -/
def collapseWsGo : Bool → List Char → List Char
  | _, [] => []
  | prev, c :: rest =>
    if isPySpace c then
      if prev then collapseWsGo true rest else ' ' :: collapseWsGo true rest
    else c :: collapseWsGo false rest

/-- The per-string normalization pipeline of normalize_column_vectorized:
lower-case, remove characters outside backslash-w and backslash-s, collapse
whitespace runs, strip the ends. -/
def normalize_str (s : String) : String :=
  pyStrip (collapseWsGo false (stripSymbols (pyLower s).toList)).asString

/-- normalize_column_vectorized applied to one cell.  pandas astype(str)
first renders the cell (a NaN cell becomes the string "nan"), the pipeline
runs, and an empty result is replaced by None. -/
def normalizeOne (c : Cell) : Cell :=
  let n := normalize_str (pyStrCell c)
  if n = "" then none else some n

/-- normalize_column_vectorized from merge.py, on a whole column. -/
def normalize_column_vectorized (l : List Cell) : List Cell :=
  l.map normalizeOne

/-- spec_normalize is modelled from the words of spec section 4.1, for
comparison with the source function: lower-case the input; strip all
characters that are not letters, digits, or whitespace; collapse runs of
whitespace to a single space; trim leading and trailing whitespace. -/
def spec_normalize (s : String) : String :=
  let kept := (pyLower s).data.filter (fun c => c.isAlphanum || isPySpace c)
  let pieces := (splitOnSep ' ' (kept.map (fun c => if isPySpace c then ' ' else c))).filter
    (fun w => w ≠ [])
  ⟨List.intercalate [' '] pieces⟩

/-- A record of a tabular set: an association list from field name to cell;
lookups take the first matching pair. -/
abbrev Row := List (String × Cell)

/-- Cell of a row at a field name; a field not present reads as missing. -/
def getCell (r : Row) (c : String) : Cell :=
  match r.find? (fun p => p.1 == c) with
  | some p => p.2
  | none => none

/-- A record set: the column schema and the rows. -/
structure DF where
  cols : List String
  rows : List Row

/-- The canonical key of a prepared row. -/
def rowKey (r : Row) : Cell := getCell r NORMALIZED_NAME_COLUMN

/-- Assignment of the normalized-key column to one row. -/
def addNorm (mc : String) (r : Row) : Row :=
  r ++ [(NORMALIZED_NAME_COLUMN, normalizeOne (getCell r mc))]

/-- drop_duplicates keep=first on the normalized column: the first row of
each key survives, later rows with an already-seen key are dropped. -/
def dedupRows : List Row → List Cell → List Row
  | [], _ => []
  | r :: rest, seen =>
    if rowKey r ∈ seen then dedupRows rest seen
    else r :: dedupRows rest (rowKey r :: seen)

/-- prepare_for_merge from merge.py: bail out with an empty frame when the
merge column is absent, otherwise add the normalized column, drop rows whose
key is None, and drop duplicate keys keeping the first occurrence. -/
def prepare_for_merge (df : DF) (mc : String) : DF :=
  if mc ∈ df.cols then
    let rows1 := df.rows.map (addNorm mc)
    let rows2 := rows1.filter (fun r => (rowKey r).isSome)
    ⟨df.cols ++ [NORMALIZED_NAME_COLUMN], dedupRows rows2 []⟩
  else ⟨[], []⟩

/-- Columns of the second frame kept for the join: those absent from the
first frame, the merge key excluded (merge_dataframes, df2_unique_cols). -/
def df2UniqueCols (df1 df2 : DF) : List String :=
  df2.cols.filter (fun c => !df1.cols.contains c && c != NORMALIZED_NAME_COLUMN)

/-- Projection of a row to a column list, in that column order. -/
def restrictRow (cols : List String) (r : Row) : Row :=
  cols.map (fun c => (c, getCell r c))

/-- Inner join on the normalized key: each left row that has a partner with
the same key yields one output row, the left row extended by the projection
of the partner to the columns unique to the right frame.  Keys are unique on
both sides after preparation, so find? picks the unique partner. -/
def joinRows (rows1 rows2 : List Row) (u : List String) : List Row :=
  rows1.filterMap (fun r1 =>
    match rows2.find? (fun r2 => rowKey r2 == rowKey r1) with
    | some r2 => some (r1 ++ restrictRow u r2)
    | none => none)

/-- Removal of a column from the schema and from every row. -/
def dropColDF (c : String) (df : DF) : DF :=
  ⟨df.cols.filter (fun x => x != c), df.rows.map (fun r => r.filter (fun p => p.1 != c))⟩

/-- merge_dataframes from merge.py: empty input short-circuits to an empty
frame; otherwise inner join on the normalized key, appending the columns
unique to the second frame, then the temporary key column is dropped. -/
def merge_dataframes (df1 df2 : DF) : DF :=
  if df1.rows.isEmpty || df2.rows.isEmpty then ⟨[], []⟩
  else
    let u := df2UniqueCols df1 df2
    dropColDF NORMALIZED_NAME_COLUMN ⟨df1.cols ++ u, joinRows df1.rows df2.rows u⟩

/-- The whole joiner pipeline of merge.py, preparation then merge. -/
def mergePipeline (dfA dfB : DF) (mc : String) : DF :=
  merge_dataframes (prepare_for_merge dfA mc) (prepare_for_merge dfB mc)

/-- First concrete input set of the join witness: a duplicate normalized
key, a shared column and an unmatched key. -/
def dfW1 : DF :=
  ⟨["molecule_name", "PubChem_id"],
    [[("molecule_name", some "  Rutin "), ("PubChem_id", some "1")],
      [("molecule_name", some "rutin!"), ("PubChem_id", some "2")],
      [("molecule_name", some "Foo"), ("PubChem_id", some "3")]]⟩

/-- Second concrete input set of the join witness, sharing PubChem_id as a
column name and contributing the column Extra. -/
def dfW2 : DF :=
  ⟨["molecule_name", "PubChem_id", "Extra"],
    [[("molecule_name", some "rutin"), ("PubChem_id", some "9"), ("Extra", some "e1")],
      [("molecule_name", some "bar"), ("PubChem_id", some "8"), ("Extra", some "e2")]]⟩

end DJoin

/-! ## verified.py : hierarchical resolver, cross-validation, reconciliation -/

namespace Resolver

/-- Column-name constants from verified.py. -/
def name_col : String := "molecule_name"

def alias_col : String := "Alias"

def cas_id_col : String := "CAS_id"

def pubchem_id_col : String := "PubChem_id"

/-- Limit on additional aliases tried when the first alias fails. -/
def max_subsequent_aliases_to_try : Nat := 2

/-- An input record, fixed to the four columns the script requires; the
schema order used by the comparison loop is molecule_name, Alias, CAS_id,
PubChem_id. -/
structure Rec where
  name : Cell
  aliasVal : Cell
  cas_id : Cell
  pubchem_id : Cell
deriving DecidableEq

/-- The attributes of a fetched registry entity used by the script. -/
structure Entity where
  cid : Int
  synonyms : List String
  iupac_name : Option String
deriving DecidableEq

/-- The external registry oracle: pcp.get_cids(q, name) and
pcp.Compound.from_cid(c); a fetch that finds nothing returns none. -/
structure Registry where
  getCids : String → List Int
  fromCid : Int → Option Entity

/-- One external call, tagged with the tier that issued it. -/
inductive TCall
  | nameCids (q : String)
  | nameFetch (c : Int)
  | faCids (q : String)
  | faFetch (c : Int)
  | saCids (q : String)
  | saFetch (c : Int)
  | idFetch (c : Int)
deriving DecidableEq

/-- Position of a call in the fixed tier order: primary name, first alias,
subsequent aliases, direct id. -/
def tierRank : TCall → Nat
  | .nameCids _ => 0
  | .nameFetch _ => 0
  | .faCids _ => 1
  | .faFetch _ => 1
  | .saCids _ => 2
  | .saFetch _ => 2
  | .idFetch _ => 3

/-- Which lookup produced the accepted match (the found_by value). -/
inductive FoundBy
  | byName
  | byAliasFirst (a : String)
  | byAliasSub (a : String)
  | byId
deriving DecidableEq

/-- found_by == name_col or found_by.startswith(alias_col): true exactly for
the name tier and both alias tiers. -/
def isNameOrAlias : FoundBy → Bool
  | .byId => false
  | _ => true

/-- Note written while the subsequent-alias attempt ends without a unique
candidate (lines 323 to 327 of verified.py). -/
inductive SubNote
  | multiFound (tried : List String)
  | noUnique (tried : List String)
deriving DecidableEq

/-- Structured overall_status values produced during the lookup phase.  Each
constructor corresponds to one format string of the source; subCombined
keeps the previous status as an explicit field because line 327 concatenates
it in front of the subsequent-alias note. -/
inductive PreStatus
  | unprocessed
  | nameMulti (q : String) (n : Nat)
  | nameNone (q : String)
  | faMulti (a : String) (n : Nat)
  | faNoUnique (a : String)
  | aliasEmpty
  | saMultiCids (tried : List String) (cids : List Int)
  | subCombined (former : PreStatus) (note : SubNote)
  | idNone (c : Int)
  | idInvalid (v : Cell)
deriving DecidableEq

/-- Whether the rendered status text contains the substring meaning
name-not-matched.  Of all lookup statuses only the zero-candidate name
status carries it, and a combined status inherits it from its former part
(the payload strings are assumed not to contain the sentinel). -/
def mentionsNameNoMatch : PreStatus → Bool
  | .nameNone _ => true
  | .subCombined former _ => mentionsNameNoMatch former
  | _ => false

/-- The overwrite guard used throughout the lookup phase: the status may be
replaced while it is still unprocessed or mentions that the name found no
match. -/
def allowOverwrite (p : PreStatus) : Bool :=
  p == .unprocessed || mentionsNameNoMatch p

/-- Guarded status assignment. -/
def guardSet (old new : PreStatus) : PreStatus :=
  if allowOverwrite old then new else old

/-- CAS numbers extracted from a synonym list by pattern match, with
multiplicity (the source builds a Python list, not a set). -/
def casExtract (syns : List String) : List String :=
  syns.filterMap get_valid_cas

/-- Truthiness of original_cid_for_validation: Python treats both None and
the integer zero as false. -/
def origCidTruthy (r : Rec) : Bool :=
  match get_valid_cid r.pubchem_id with
  | some c => c != 0
  | none => false

/-- The reporting-only cross-validation block, identical at all three
name/alias acceptance sites: pass when the valid original id equals the
entity id, else when a valid original CAS appears among the CAS numbers
extracted from a nonempty synonym list, else trivially when neither original
identifier is present, otherwise fail. -/
def validateEnt (r : Rec) (ent : Entity) : Bool :=
  let origCid := get_valid_cid r.pubchem_id
  let origCas := getValidCasCell r.cas_id
  if origCidTruthy r && origCid == some ent.cid then true
  else if (origCas.isSome && !ent.synonyms.isEmpty) then
    match origCas with
    | some cas => casExtract ent.synonyms |>.contains cas
    | none => false
  else if !origCidTruthy r && origCas == none then true
  else false

/-- State threaded through the three lookup steps. -/
structure LookOut where
  calls : List TCall
  found : Option (Entity × FoundBy)
  cv : Bool
  pre : PreStatus
deriving DecidableEq

/-- Step 1 of the main loop: lookup by the primary name. -/
def step1 (reg : Registry) (r : Rec) : LookOut :=
  match r.name with
  | none => ⟨[], none, true, .unprocessed⟩
  | some n =>
    if isNanStr n then ⟨[], none, true, .unprocessed⟩
    else if pyStrip n = "" then ⟨[], none, true, .unprocessed⟩
    else
      match reg.getCids n with
      | [] => ⟨[.nameCids n], none, true, .nameNone n⟩
      | [c] =>
        match reg.fromCid c with
        | some ent =>
          ⟨[.nameCids n, .nameFetch c], some (ent, .byName), validateEnt r ent, .unprocessed⟩
        | none => ⟨[.nameCids n, .nameFetch c], none, true, .unprocessed⟩
      | _ :: _ :: restL =>
        ⟨[.nameCids n], none, true, .nameMulti n (restL.length + 2)⟩

/-- The alias list: split on the semicolon, strip each piece, keep the
nonempty pieces. -/
def parseAliases (a : String) : List String :=
  (splitOnSep ';' a.data).filterMap (fun x =>
    let t : String := ⟨stripChars x⟩
    if t = "" then none else some t)

/-- Distinct-preserving insertion used to model the Python set of candidate
cids found by subsequent aliases. -/
def insertNew (l : List Int) (c : Int) : List Int :=
  if c ∈ l then l else l ++ [c]

/-- First-writer-wins insertion into cid_to_alias_map. -/
def amapInsert (m : List (Int × String)) (c : Int) (a : String) : List (Int × String) :=
  if m.any (fun p => p.1 == c) then m else m ++ [(c, a)]

/-- Lookup in cid_to_alias_map. -/
def amapGet (m : List (Int × String)) (c : Int) : Option String :=
  (m.find? (fun p => p.1 == c)).map (fun p => p.2)

/-- Accumulator of the loop over the subsequent aliases. -/
structure SubAcc where
  calls : List TCall
  cids : List Int
  amap : List (Int × String)
  multi : Bool
deriving DecidableEq

/-- The loop over aliases_to_attempt: each alias is looked up independently;
a single-candidate result contributes its cid to the set and, first writer
wins, to the cid-to-alias map; a multi-candidate result only raises the
alias_found_multi flag. -/
def subScan (reg : Registry) : List String → SubAcc → SubAcc
  | [], acc => acc
  | al :: restA, acc =>
    let cids := reg.getCids al
    let acc1 : SubAcc := ⟨acc.calls ++ [.saCids al], acc.cids, acc.amap, acc.multi⟩
    let acc2 : SubAcc :=
      match cids with
      | [c] => ⟨acc1.calls, insertNew acc1.cids c, amapInsert acc1.amap c al, acc1.multi⟩
      | [] => acc1
      | _ => ⟨acc1.calls, acc1.cids, acc1.amap, true⟩
    subScan reg restA acc2

/-- The subsequent-alias phase: scan the bounded alias list; accept exactly
when one distinct cid was collected and its fetch succeeds, attributing the
match to the first alias that produced that cid; more than one distinct cid
sets the divergence status under the overwrite guard; no cid at all writes
the combined status unconditionally. -/
def subAliasPhase (reg : Registry) (r : Rec) (st1 : LookOut)
    (attempt : List String) : LookOut :=
  if attempt.isEmpty then st1
  else
    let acc := subScan reg attempt ⟨[], [], [], false⟩
    let calls2 := st1.calls ++ acc.calls
    match acc.cids with
    | [c] =>
      let detail := (amapGet acc.amap c).getD (attempt.headD "")
      match reg.fromCid c with
      | some ent =>
        ⟨calls2 ++ [.saFetch c], some (ent, .byAliasSub detail), validateEnt r ent, st1.pre⟩
      | none => ⟨calls2 ++ [.saFetch c], none, st1.cv, st1.pre⟩
    | [] =>
      let note := if acc.multi then SubNote.multiFound attempt else SubNote.noUnique attempt
      ⟨calls2, none, st1.cv, .subCombined st1.pre note⟩
    | _ => ⟨calls2, none, st1.cv, guardSet st1.pre (.saMultiCids attempt acc.cids)⟩

/-- The body of step 2 once a nonempty alias list a1 :: rest is at hand:
look up the first alias; a unique candidate is fetched and accepted; a
multi-candidate first alias records its status under the guard; when the
first alias fails and further aliases exist, the bounded subsequent-alias
phase runs, otherwise the no-unique-first-alias status is recorded. -/
def step2core (reg : Registry) (r : Rec) (st : LookOut) (a1 : String)
    (rest : List String) : LookOut :=
  let cids1 := reg.getCids a1
  let preA := if 1 < cids1.length then guardSet st.pre (.faMulti a1 cids1.length) else st.pre
  let st1 : LookOut := ⟨st.calls ++ [.faCids a1], none, st.cv, preA⟩
  match cids1 with
  | [c] =>
    if c = 0 then
      if rest.isEmpty then ⟨st1.calls, none, st.cv, guardSet st1.pre (.faNoUnique a1)⟩
      else subAliasPhase reg r st1 (rest.take max_subsequent_aliases_to_try)
    else
      match reg.fromCid c with
      | some ent =>
        ⟨st1.calls ++ [.faFetch c], some (ent, .byAliasFirst a1), validateEnt r ent, st1.pre⟩
      | none => ⟨st1.calls ++ [.faFetch c], none, st.cv, st1.pre⟩
  | _ =>
    if rest.isEmpty then ⟨st1.calls, none, st.cv, guardSet st1.pre (.faNoUnique a1)⟩
    else subAliasPhase reg r st1 (rest.take max_subsequent_aliases_to_try)

/-- Step 2 of the main loop: the alias tiers, entered only while nothing was
found and the alias cell holds a usable string. -/
def step2 (reg : Registry) (r : Rec) (st : LookOut) : LookOut :=
  if st.found.isSome then st
  else
    match r.aliasVal with
    | none => st
    | some a =>
      if isNanStr a then st
      else if pyStrip a = "" then st
      else
        match parseAliases a with
        | [] => ⟨st.calls, st.found, st.cv, guardSet st.pre .aliasEmpty⟩
        | a1 :: rest => step2core reg r st a1 rest

/-- Step 3 of the main loop: direct lookup by the PubChem id field, entered
only while nothing was found.  The fetch happens exactly when get_valid_cid
yields a truthy (nonzero) integer; a parsed zero or a present but unparsable
value records the invalid-format status. -/
def step3 (reg : Registry) (r : Rec) (st : LookOut) : LookOut :=
  if st.found.isSome then st
  else
    match get_valid_cid r.pubchem_id with
    | some c =>
      if c = 0 then ⟨st.calls, none, st.cv, guardSet st.pre (.idInvalid r.pubchem_id)⟩
      else
        match reg.fromCid c with
        | some ent => ⟨st.calls ++ [.idFetch c], some (ent, .byId), st.cv, st.pre⟩
        | none => ⟨st.calls ++ [.idFetch c], none, st.cv, guardSet st.pre (.idNone c)⟩
    | none =>
      if is_nan_or_none r.pubchem_id then st
      else ⟨st.calls, none, st.cv, guardSet st.pre (.idInvalid r.pubchem_id)⟩

/-- Structured status fragments appended to current_row_status_parts during
step 4; each constructor corresponds to one format string. -/
inductive StatusPart
  | cvFail
  | idUpdated (fb : FoundBy) (cid : Int)
  | iupacConsistent
  | iupacInconsistent
  | aliasMatchesUsed
  | aliasInSyns
  | aliasNotInSyns
  | aliasNoSyns
  | casConsistent
  | casMismatch (l : List String)
  | casOrigValidNotFound
  | casUpdated
  | casMultiple (l : List String)
  | casNone
deriving DecidableEq

/-- The column whose name prefixes the rendered fragment, used by the
final-status filter; the cross-validation note carries no column prefix. -/
def partCol : StatusPart → Option String
  | .cvFail => none
  | .idUpdated _ _ => some pubchem_id_col
  | .iupacConsistent => some name_col
  | .iupacInconsistent => some name_col
  | .aliasMatchesUsed => some alias_col
  | .aliasInSyns => some alias_col
  | .aliasNotInSyns => some alias_col
  | .aliasNoSyns => some alias_col
  | _ => some cas_id_col

/-- A cell that counts as empty for the identity-name protection: missing,
NaN, or blank after stripping. -/
def cellEmptyOrBlank (c : Cell) : Bool :=
  is_nan_or_none c || pyStrip (pyStrCell c) == ""

/-- Comparison of the identity-name column against the iupac_name attribute
(lines 412 to 438): a missing registry value skips the column; otherwise a
consistency note is always recorded, and the overwrite decision of the plain
string comparison is cancelled whenever the original value is nonempty.
Returns the new cell, the notes and whether an update was recorded. -/
def iupacStep (orig : Cell) (pv? : Option String) : Cell × List StatusPart × Bool :=
  match pv? with
  | none => (orig, [], false)
  | some pv =>
    let consistent :=
      if is_nan_or_none orig then false
      else pyStrip (pyStrCell orig) == pyStrip pv
    let upd := !consistent && cellEmptyOrBlank orig
    (if upd then some pv else orig,
     [if consistent then StatusPart.iupacConsistent else StatusPart.iupacInconsistent],
     upd)

/-- Annotation of the alias column against the synonym list (lines 402 to
410): never an update, only a note. -/
def aliasStep (orig : Cell) (syns : List String) (fb : FoundBy) : List StatusPart :=
  match orig with
  | none => []
  | some s =>
    if isNanStr s then []
    else if syns.isEmpty then [.aliasNoSyns]
    else
      let specific? : Option String :=
        match fb with
        | .byAliasFirst a => some a
        | .byAliasSub a => some a
        | _ => none
      match specific? with
      | some sp =>
        if pyStrip s = sp then [.aliasMatchesUsed]
        else if syns.contains (pyStrip s) then [.aliasInSyns]
        else [.aliasNotInSyns]
      | none =>
        if syns.contains (pyStrip s) then [.aliasInSyns]
        else [.aliasNotInSyns]

/-- The CAS column handling (lines 385 to 400): with a valid original value
only notes are written; without one, a single extracted candidate (counted
with multiplicity, as the source list is) is filled in, several candidates
record the ambiguity, none records the absence. -/
def casStep (orig : Cell) (syns : List String) : Cell × List StatusPart × Bool :=
  let clist := casExtract syns
  match getValidCasCell orig with
  | some oc =>
    let note :=
      if clist.isEmpty then StatusPart.casOrigValidNotFound
      else if clist.contains oc then StatusPart.casConsistent
      else StatusPart.casMismatch clist
    (orig, [note], false)
  | none =>
    match clist with
    | [x] => (some x, [.casUpdated], true)
    | [] => (orig, [.casNone], false)
    | _ => (orig, [.casMultiple clist], false)

/-- The final status attached to the row. -/
inductive FinalStatus
  | noUnique
  | pre (p : PreStatus)
  | matchedUpdated (fb : FoundBy) (updates : List String) (others : List StatusPart)
  | matchedNotes (fb : FoundBy) (parts : List StatusPart)
  | matchedConsistent (fb : FoundBy)
deriving DecidableEq

/-- The found_by label named inside a matched final status. -/
def statusFb : FinalStatus → Option FoundBy
  | .matchedUpdated fb _ _ => some fb
  | .matchedNotes fb _ => some fb
  | .matchedConsistent fb => some fb
  | _ => none

/-- The status fragments surviving into the final status. -/
def statusParts : FinalStatus → List StatusPart
  | .matchedUpdated _ _ o => o
  | .matchedNotes _ p => p
  | _ => []

/-- The updated-column list named inside the final status. -/
def statusUpdates : FinalStatus → List String
  | .matchedUpdated _ u _ => u
  | _ => []

/-- The outcome of one row of the main loop. -/
structure RowResult where
  calls : List TCall
  found : Option (Entity × FoundBy)
  cvPassed : Bool
  cvReported : Bool
  newName : Cell
  newCas : Cell
  newPid : Cell
  updates : List String
  status : FinalStatus
deriving DecidableEq

/-- The conditional PubChem id overwrite for name/alias matches (lines 361
to 373): an original cell parsing to the found cid is left alone without a
note; anything else is overwritten with the found cid and recorded. -/
def idUpdatePack (r : Rec) (ent : Entity) (fb : FoundBy) : Cell × List StatusPart × Bool :=
  if isNameOrAlias fb then
    match get_valid_cid r.pubchem_id with
    | some o =>
      if o = ent.cid then (r.pubchem_id, [], false)
      else (some (toString ent.cid), [.idUpdated fb ent.cid], true)
    | none => (some (toString ent.cid), [.idUpdated fb ent.cid], true)
  else (r.pubchem_id, [], false)

/-- updates_made_cols after the comparison loop, in append order: the id
column, then the loop columns in schema order. -/
def rowUpdates (r : Rec) (ent : Entity) (fb : FoundBy) : List String :=
  (if (idUpdatePack r ent fb).2.2 then [pubchem_id_col] else [])
    ++ (if (iupacStep r.name ent.iupac_name).2.2 then [name_col] else [])
    ++ (if (casStep r.cas_id ent.synonyms).2.2 then [cas_id_col] else [])

/-- current_row_status_parts after the comparison loop, in append order. -/
def rowParts (r : Rec) (cv : Bool) (ent : Entity) (fb : FoundBy) : List StatusPart :=
  (if !cv && isNameOrAlias fb then [StatusPart.cvFail] else [])
    ++ (idUpdatePack r ent fb).2.1
    ++ (iupacStep r.name ent.iupac_name).2.1
    ++ aliasStep r.aliasVal ent.synonyms fb
    ++ (casStep r.cas_id ent.synonyms).2.1

/-- The final status assembly for a matched row (lines 445 to 454): with
updates, the update list plus the fragments not belonging to an updated
column; without updates, the fragments; with nothing at all, the
data-consistent status. -/
def finalStatusOf (r : Rec) (cv : Bool) (ent : Entity) (fb : FoundBy) : FinalStatus :=
  let updates := rowUpdates r ent fb
  let parts := rowParts r cv ent fb
  if updates.isEmpty then
    if parts.isEmpty then FinalStatus.matchedConsistent fb
    else FinalStatus.matchedNotes fb parts
  else
    FinalStatus.matchedUpdated fb updates
      (parts.filter (fun p =>
        match partCol p with
        | some c => !updates.contains c
        | none => true))

/-- Step 4 for a row with a found compound: the advisory cross-validation
note and counter, the conditional PubChem id overwrite, the comparison loop
over the remaining schema columns, and the final status. -/
def buildResult (r : Rec) (st : LookOut) (ent : Entity) (fb : FoundBy) : RowResult :=
  ⟨st.calls, some (ent, fb), st.cv, !st.cv && isNameOrAlias fb,
    (iupacStep r.name ent.iupac_name).1, (casStep r.cas_id ent.synonyms).1,
    (idUpdatePack r ent fb).1, rowUpdates r ent fb, finalStatusOf r st.cv ent fb⟩

/-- Steps 4 and 5: a row without a match keeps its cells and records the
lookup status (or the generic no-unique-match text when nothing was ever
recorded); a matched row goes through buildResult. -/
def reconcileRow (r : Rec) (st : LookOut) : RowResult :=
  match st.found with
  | none =>
    ⟨st.calls, none, st.cv, false, r.name, r.cas_id, r.pubchem_id, [],
      if st.pre = .unprocessed then .noUnique else .pre st.pre⟩
  | some (ent, fb) => buildResult r st ent fb

/-- The lookup phase alone (steps 1 to 3). -/
def lookupPhase (reg : Registry) (r : Rec) : LookOut :=
  step3 reg r (step2 reg r (step1 reg r))

/-- The whole per-row pass of the main checking loop. -/
def processRow (reg : Registry) (r : Rec) : RowResult :=
  reconcileRow r (lookupPhase reg r)

/-- The run-level counter cross_validation_failures_reported over a record
set: each row contributes one exactly when its reporting flag is set. -/
def cvFailCount (reg : Registry) (recs : List Rec) : Nat :=
  (recs.map (fun r => processRow reg r)).countP (fun res => res.cvReported)

/-- The unique-hit of one alias lookup: the candidate cid when the lookup
returns exactly one. -/
def uniqueHit (reg : Registry) (al : String) : Option Int :=
  match reg.getCids al with
  | [c] => some c
  | _ => none

/-- The cids contributed by a list of aliases, in order, with repetition. -/
def uniqueHits (reg : Registry) (l : List String) : List Int :=
  l.filterMap (uniqueHit reg)

/-- Insertion-ordered deduplication, the model of the Python set built by
the subsequent-alias loop. -/
def dedupInts (l : List Int) : List Int :=
  l.foldl insertNew []

/-- Insertion-ordered deduplication of strings, used to count the distinct
CAS candidates extracted from a synonym list. -/
def dedupStrs (l : List String) : List String :=
  l.foldl (fun acc s => if s ∈ acc then acc else acc ++ [s]) []

/-- Recognizer of subsequent-alias lookup calls in a trace. -/
def isSaCidsCall : TCall → Bool
  | .saCids _ => true
  | _ => false

/-- The first alias of a list whose lookup returned exactly the candidate c. -/
def firstFinder (reg : Registry) (l : List String) (c : Int) : Option String :=
  l.find? (fun al => uniqueHit reg al == some c)

/-- The trace appended by the subsequent-alias phase: one lookup per
attempted alias, then one fetch when exactly one distinct candidate was
collected. -/
def subPhaseCalls (reg : Registry) (attempt : List String) : List TCall :=
  if attempt.isEmpty then []
  else
    attempt.map TCall.saCids ++
      (match (subScan reg attempt ⟨[], [], [], false⟩).cids with
        | [c] => [TCall.saFetch c]
        | _ => [])

/-! Concrete fixtures used by the witness and counterexample theorems. -/

/-- A registry over a handful of names, used by the concrete scenarios. -/
def entW : Entity := ⟨7, ["Syn1", "50-00-0"], some "quercetin"⟩

/-- A second entity with several extractable CAS numbers. -/
def entW2 : Entity := ⟨999, ["50-00-0", "64-17-5", "x"], some "bar"⟩

/-- Registry in which only the name X resolves, to entity entW. -/
def regW1 : Registry :=
  ⟨fun q => if q = "X" then [7] else [], fun c => if c = 7 then some entW else none⟩

/-- Registry in which CompoundY and CompoundZ agree on candidate 999. -/
def regW2 : Registry :=
  ⟨fun q => if q = "CompoundY" || q = "CompoundZ" then [999] else [],
    fun c => if c = 999 then some entW2 else none⟩

/-- Registry like regW2 but with a fetch that always succeeds, for the
scenarios that assume a healthy registry. -/
def regW2t : Registry :=
  ⟨fun q => if q = "CompoundY" || q = "CompoundZ" then [999] else [],
    fun c => some (if c = 999 then entW2 else entW)⟩

/-- Registry with an ambiguous alias B and a unique alias C. -/
def regW3 : Registry :=
  ⟨fun q => if q = "B" then [1, 2, 3] else if q = "C" then [999] else [],
    fun c => if c = 999 then some entW2 else none⟩

/-- Registry in which the name Quercetin resolves to entity entW. -/
def regW4 : Registry :=
  ⟨fun q => if q = "Quercetin" then [7] else [], fun c => if c = 7 then some entW else none⟩

/-- Registry that never finds anything. -/
def regW0 : Registry := ⟨fun _ => [], fun _ => none⟩

/-- Record whose name misses and whose first alias X hits uniquely, with a
valid id field also present. -/
def recW1 : Rec := ⟨some "Foo", some "X;Y;Z", none, some "123"⟩

/-- Record of the end-to-end scenario C of the spec. -/
def recW2 : Rec := ⟨some "Foo", some "CompoundX;CompoundY;CompoundZ", none, none⟩

/-- Record with only a negative id value. -/
def recW3 : Rec := ⟨none, none, none, some "-5"⟩

/-- Record matched by name whose original identifiers disagree with entW. -/
def recW4 : Rec := ⟨some "Quercetin", none, some "99-99-9", some "123"⟩

/-- Record matched by name with no original CAS value. -/
def recW5 : Rec := ⟨some "Quercetin", none, none, none⟩

/-- Record exercising the ambiguous-plus-unique subsequent aliases. -/
def recW6 : Rec := ⟨none, some "A;B;C", none, none⟩

/-- Record matched via its first alias whose original identifiers both
disagree with entW. -/
def recW7 : Rec := ⟨some "Foo", some "X;Y;Z", some "99-99-9", some "123"⟩

end Resolver

/-! ## Theorems -/

namespace Resolver

/-- Every call issued by step 1 belongs to the primary-name tier. -/
theorem step1_rank (reg : Registry) (r : Rec) :
    ∀ x ∈ (step1 reg r).calls, tierRank x = 0 := by
  intro x hx
  unfold step1 at hx
  repeat' split at hx
  all_goals
    first
      | exact absurd hx (List.not_mem_nil x)
      | (fin_cases hx <;> rfl)

/-- The calls of the subsequent-alias loop: one lookup per attempted alias. -/
theorem subScan_calls (reg : Registry) (l : List String) (acc : SubAcc) :
    (subScan reg l acc).calls = acc.calls ++ l.map TCall.saCids := by
  induction l generalizing acc with
  | nil => simp [subScan]
  | cons al rest ih =>
    rcases h : reg.getCids al with _ | ⟨c, _ | ⟨c2, t⟩⟩ <;>
      simp [subScan, h, ih]

/-- The candidate set collected by the loop is the fold of the unique hits. -/
theorem subScan_cids (reg : Registry) (l : List String) (acc : SubAcc) :
    (subScan reg l acc).cids = (uniqueHits reg l).foldl insertNew acc.cids := by
  induction l generalizing acc with
  | nil => simp [subScan, uniqueHits]
  | cons al rest ih =>
    rcases h : reg.getCids al with _ | ⟨c, _ | ⟨c2, t⟩⟩ <;>
      simp [subScan, h, ih, uniqueHits, uniqueHit, List.filterMap_cons]

/-- The multi flag of the loop records whether some attempted alias returned
several candidates. -/
theorem subScan_multi (reg : Registry) (l : List String) (acc : SubAcc) :
    (subScan reg l acc).multi
      = (acc.multi || l.any (fun al => decide (1 < (reg.getCids al).length))) := by
  induction l generalizing acc with
  | nil => simp [subScan]
  | cons al rest ih =>
    rcases h : reg.getCids al with _ | ⟨c, _ | ⟨c2, t⟩⟩ <;>
      simp [subScan, h, ih, Nat.lt_succ_iff]

/-- Reading the cid-to-alias map after a first-writer-wins insertion. -/
theorem amapGet_insert (m : List (Int × String)) (c c2 : Int) (a : String) :
    amapGet (amapInsert m c2 a) c =
      (match amapGet m c with
        | some v => some v
        | none => if c2 = c then some a else none) := by
  unfold amapInsert amapGet
  by_cases h : m.any (fun p => p.1 == c2)
  · cases hf : m.find? (fun p => p.1 == c) with
    | some p => simp [h, hf]
    | none =>
      simp only [h, if_true, hf, Option.map_none]
      have hne : c2 ≠ c := by
        intro he
        subst he
        rcases List.any_eq_true.1 h with ⟨p, hp, hpc⟩
        have := List.find?_eq_none.1 hf p hp
        exact this hpc
      simp [hne]
  · cases hf : m.find? (fun p => p.1 == c) with
    | some p =>
      simp [h, List.find?_append, hf]
    | none =>
      by_cases he : c2 = c
      · subst he
        simp [h, List.find?_append, hf]
      · have : ((c2, a).1 == c) = false := by simp [he]
        simp [h, List.find?_append, hf, this, he]

/-- The cid-to-alias map ends up naming, for each cid, the first attempted
alias whose lookup returned exactly that cid. -/
theorem subScan_amapGet (reg : Registry) (l : List String) (acc : SubAcc) (c : Int) :
    amapGet (subScan reg l acc).amap c =
      (match amapGet acc.amap c with
        | some v => some v
        | none => firstFinder reg l c) := by
  induction l generalizing acc with
  | nil =>
    simp only [subScan, firstFinder, List.find?_nil]
    cases amapGet acc.amap c <;> simp
  | cons al rest ih =>
    rcases h : reg.getCids al with _ | ⟨x, _ | ⟨y, t⟩⟩
    · have hu : uniqueHit reg al = none := by simp [uniqueHit, h]
      have hff : firstFinder reg (al :: rest) c = firstFinder reg rest c := by
        simp [firstFinder, List.find?_cons, hu]
      simp only [subScan, h]
      rw [ih, hff]
    · have hu : uniqueHit reg al = some x := by simp [uniqueHit, h]
      simp only [subScan, h]
      rw [ih, amapGet_insert]
      by_cases hxc : x = c
      · have hff : firstFinder reg (al :: rest) c = some al := by
          simp [firstFinder, List.find?_cons, hu, hxc]
        rw [hff]
        cases amapGet acc.amap c <;> simp [hxc]
      · have hff : firstFinder reg (al :: rest) c = firstFinder reg rest c := by
          simp [firstFinder, List.find?_cons, hu, hxc]
        rw [hff]
        cases amapGet acc.amap c <;> simp [hxc]
    · have hu : uniqueHit reg al = none := by simp [uniqueHit, h]
      have hff : firstFinder reg (al :: rest) c = firstFinder reg rest c := by
        simp [firstFinder, List.find?_cons, hu]
      simp only [subScan, h]
      rw [ih, hff]

/-- Calls produced by mapping the subsequent-alias tag all rank 2. -/
theorem ranks_map_saCids (l : List String) :
    ∀ x ∈ l.map TCall.saCids, tierRank x = 2 := by
  intro x hx
  rcases List.mem_map.1 hx with ⟨a, _, rfl⟩
  rfl

/-- The trace of the subsequent-alias phase is the one described by
subPhaseCalls, independently of the incoming state. -/
theorem subAliasPhase_calls (reg : Registry) (r : Rec) (st1 : LookOut)
    (attempt : List String) :
    (subAliasPhase reg r st1 attempt).calls = st1.calls ++ subPhaseCalls reg attempt := by
  by_cases hemp : attempt.isEmpty
  · simp [subAliasPhase, subPhaseCalls, hemp]
  · have hacc : (subScan reg attempt ⟨[], [], [], false⟩).calls = attempt.map TCall.saCids := by
      simp [subScan_calls]
    rcases hcids : (subScan reg attempt ⟨[], [], [], false⟩).cids with _ | ⟨c, cr⟩
    · simp [subAliasPhase, subPhaseCalls, hemp, hcids, hacc]
    · rcases cr with _ | ⟨c2, t⟩
      · rcases hfc : reg.fromCid c with _ | ent <;>
          simp [subAliasPhase, subPhaseCalls, hemp, hcids, hacc, hfc]
      · simp [subAliasPhase, subPhaseCalls, hemp, hcids, hacc]

/-- Every call of the subsequent-alias phase trace ranks 2. -/
theorem subPhaseCalls_rank (reg : Registry) (attempt : List String) :
    ∀ x ∈ subPhaseCalls reg attempt, tierRank x = 2 := by
  intro x hx
  unfold subPhaseCalls at hx
  by_cases hemp : attempt.isEmpty
  · simp [hemp] at hx
  · rw [if_neg hemp] at hx
    rcases List.mem_append.1 hx with h2 | h2
    · exact ranks_map_saCids attempt x h2
    · rcases hcids : (subScan reg attempt ⟨[], [], [], false⟩).cids with _ | ⟨c, cr⟩
      · rw [hcids] at h2; simp at h2
      · rcases cr with _ | ⟨c2, t⟩
        · rw [hcids] at h2
          rw [List.mem_singleton.1 h2]
          rfl
        · rw [hcids] at h2; simp at h2

/-- Step 2 appends first-alias-tier calls then subsequent-alias-tier calls. -/
theorem step2_decomp (reg : Registry) (r : Rec) (st : LookOut) :
    ∃ dfa dsa, (step2 reg r st).calls = st.calls ++ (dfa ++ dsa) ∧
      (∀ x ∈ dfa, tierRank x = 1) ∧ (∀ x ∈ dsa, tierRank x = 2) := by
  by_cases hf : st.found.isSome
  · exact ⟨[], [], by simp [step2, hf], by simp, by simp⟩
  · rcases ha : r.aliasVal with _ | a
    · exact ⟨[], [], by simp [step2, hf, ha], by simp, by simp⟩
    · by_cases hnn : isNanStr a
      · exact ⟨[], [], by simp [step2, hf, ha, hnn], by simp, by simp⟩
      · by_cases hblank : pyStrip a = ""
        · exact ⟨[], [], by simp [step2, hf, ha, hnn, hblank], by simp, by simp⟩
        · rcases hsp : parseAliases a with _ | ⟨a1, rest⟩
          · exact ⟨[], [], by simp [step2, hf, ha, hnn, hblank, hsp], by simp, by simp⟩
          · have hcore : step2 reg r st = step2core reg r st a1 rest := by
              simp [step2, hf, ha, hnn, hblank, hsp]
            rw [hcore]
            rcases hc1 : reg.getCids a1 with _ | ⟨c, _ | ⟨c2, t⟩⟩
            · by_cases hrest : rest.isEmpty
              · refine ⟨[TCall.faCids a1], [], ?_, ?_, by simp⟩
                · simp [step2core, hc1, hrest]
                · intro x hx; rw [List.mem_singleton.1 hx]; rfl
              · refine ⟨[TCall.faCids a1],
                  subPhaseCalls reg (rest.take max_subsequent_aliases_to_try), ?_, ?_,
                  subPhaseCalls_rank reg _⟩
                · simp [step2core, hc1, hrest, subAliasPhase_calls]
                · intro x hx; rw [List.mem_singleton.1 hx]; rfl
            · by_cases hc0 : c = 0
              · by_cases hrest : rest.isEmpty
                · refine ⟨[TCall.faCids a1], [], ?_, ?_, by simp⟩
                  · simp [step2core, hc1, hc0, hrest]
                  · intro x hx; rw [List.mem_singleton.1 hx]; rfl
                · refine ⟨[TCall.faCids a1],
                    subPhaseCalls reg (rest.take max_subsequent_aliases_to_try), ?_, ?_,
                    subPhaseCalls_rank reg _⟩
                  · simp [step2core, hc1, hc0, hrest, subAliasPhase_calls]
                  · intro x hx; rw [List.mem_singleton.1 hx]; rfl
              · rcases hfc : reg.fromCid c with _ | ent
                · refine ⟨[TCall.faCids a1, TCall.faFetch c], [], ?_, ?_, by simp⟩
                  · simp [step2core, hc1, hc0, hfc]
                  · intro x hx; fin_cases hx <;> rfl
                · refine ⟨[TCall.faCids a1, TCall.faFetch c], [], ?_, ?_, by simp⟩
                  · simp [step2core, hc1, hc0, hfc]
                  · intro x hx; fin_cases hx <;> rfl
            · by_cases hrest : rest.isEmpty
              · refine ⟨[TCall.faCids a1], [], ?_, ?_, by simp⟩
                · simp [step2core, hc1, hrest]
                · intro x hx; rw [List.mem_singleton.1 hx]; rfl
              · have hlt : (1 : Nat) < t.length + 1 + 1 := by omega
                refine ⟨[TCall.faCids a1],
                  subPhaseCalls reg (rest.take max_subsequent_aliases_to_try), ?_, ?_,
                  subPhaseCalls_rank reg _⟩
                · simp [step2core, hc1, hrest, hlt, subAliasPhase_calls]
                · intro x hx; rw [List.mem_singleton.1 hx]; rfl

/-- Step 3 appends at most one direct-id fetch, exactly when nothing was
found yet and the id field parses to a truthy integer. -/
theorem step3_decomp (reg : Registry) (r : Rec) (st : LookOut) :
    ∃ d3, (step3 reg r st).calls = st.calls ++ d3 ∧ (∀ x ∈ d3, tierRank x = 3) ∧
      (∀ c, TCall.idFetch c ∈ d3 ↔
        st.found = none ∧ get_valid_cid r.pubchem_id = some c ∧ c ≠ 0) := by
  by_cases hf : st.found.isSome
  · refine ⟨[], by simp [step3, hf], by simp, ?_⟩
    intro c
    simp only [List.not_mem_nil, false_iff]
    rintro ⟨h0, -, -⟩
    rw [h0] at hf
    simp at hf
  · have hfn : st.found = none := Option.not_isSome_iff_eq_none.1 hf
    rcases hv : get_valid_cid r.pubchem_id with _ | c
    · by_cases hnan : is_nan_or_none r.pubchem_id
      · refine ⟨[], by simp [step3, hf, hv, hnan], by simp, ?_⟩
        intro c
        simp only [List.not_mem_nil, false_iff]
        rintro ⟨-, h1, -⟩
        exact Option.noConfusion h1
      · refine ⟨[], by simp [step3, hf, hv, hnan], by simp, ?_⟩
        intro c
        simp only [List.not_mem_nil, false_iff]
        rintro ⟨-, h1, -⟩
        exact Option.noConfusion h1
    · by_cases hc0 : c = 0
      · subst hc0
        refine ⟨[], by simp [step3, hf, hv], by simp, ?_⟩
        intro c2
        simp only [List.not_mem_nil, false_iff]
        rintro ⟨-, h1, h2⟩
        exact h2 (Option.some_injective _ h1).symm
      · rcases hfc : reg.fromCid c with _ | ent
        · refine ⟨[TCall.idFetch c], by simp [step3, hf, hv, hc0, hfc], ?_, ?_⟩
          · intro x hx; rw [List.mem_singleton.1 hx]; rfl
          · intro c2
            constructor
            · intro hx
              have hcc : c2 = c := by
                have h5 : TCall.idFetch c2 = TCall.idFetch c := List.mem_singleton.1 hx
                injection h5
              exact ⟨hfn, by rw [hcc], by rw [hcc]; exact hc0⟩
            · rintro ⟨-, h1, -⟩
              rw [Option.some_injective _ h1]
              exact List.mem_singleton.2 rfl
        · refine ⟨[TCall.idFetch c], by simp [step3, hf, hv, hc0, hfc], ?_, ?_⟩
          · intro x hx; rw [List.mem_singleton.1 hx]; rfl
          · intro c2
            constructor
            · intro hx
              have hcc : c2 = c := by
                have h5 : TCall.idFetch c2 = TCall.idFetch c := List.mem_singleton.1 hx
                injection h5
              exact ⟨hfn, by rw [hcc], by rw [hcc]; exact hc0⟩
            · rintro ⟨-, h1, -⟩
              rw [Option.some_injective _ h1]
              exact List.mem_singleton.2 rfl

/-- A list of calls of one common rank is trivially ordered. -/
theorem pairwise_rank_const {l : List TCall} {k : Nat} (h : ∀ x ∈ l, tierRank x = k) :
    List.Pairwise (fun x y => tierRank x ≤ tierRank y) l := by
  induction l with
  | nil => exact List.Pairwise.nil
  | cons a t ih =>
    refine List.Pairwise.cons ?_ (ih ?_)
    · intro b hb
      rw [h a (List.mem_cons_self a t), h b (List.mem_cons_of_mem a hb)]
    · intro x hx
      exact h x (List.mem_cons_of_mem a hx)

/-- The whole trace of a row is ordered by tier: every primary-name call
precedes every first-alias call, which precedes every subsequent-alias call,
which precedes every direct-id call. -/
theorem lookup_calls_pairwise (reg : Registry) (r : Rec) :
    List.Pairwise (fun x y => tierRank x ≤ tierRank y) (lookupPhase reg r).calls := by
  obtain ⟨dfa, dsa, h2, hr1, hr2⟩ := step2_decomp reg r (step1 reg r)
  obtain ⟨d3, h3, hr3, -⟩ := step3_decomp reg r (step2 reg r (step1 reg r))
  have hcalls : (lookupPhase reg r).calls = ((step1 reg r).calls ++ (dfa ++ dsa)) ++ d3 := by
    rw [lookupPhase, h3, h2]
  rw [hcalls]
  have h1 := step1_rank reg r
  rw [List.pairwise_append]
  refine ⟨?_, pairwise_rank_const hr3, ?_⟩
  · rw [List.pairwise_append]
    refine ⟨pairwise_rank_const h1, ?_, ?_⟩
    · rw [List.pairwise_append]
      refine ⟨pairwise_rank_const hr1, pairwise_rank_const hr2, ?_⟩
      intro a ha b hb
      rw [hr1 a ha, hr2 b hb]
      omega
    · intro a ha b hb
      rw [h1 a ha]
      rcases List.mem_append.1 hb with h4 | h4
      · rw [hr1 b h4]; omega
      · rw [hr2 b h4]; omega
  · intro a ha b hb
    rw [hr3 b hb]
    rcases List.mem_append.1 ha with h4 | h4
    · rw [h1 a h4]; omega
    · rcases List.mem_append.1 h4 with h5 | h5
      · rw [hr1 a h5]; omega
      · rw [hr2 a h5]; omega

/-- Step 4 does not issue calls: the trace of a processed row is the trace
of its lookup phase. -/
theorem processRow_calls (reg : Registry) (r : Rec) :
    (processRow reg r).calls = (lookupPhase reg r).calls := by
  unfold processRow reconcileRow
  rcases h : (lookupPhase reg r).found with _ | ⟨ent, fb⟩ <;> simp [h, buildResult]

/-- Membership in the insertion fold is membership in the seed or the list. -/
theorem mem_foldl_insertNew (l : List Int) (acc : List Int) (x : Int) :
    x ∈ l.foldl insertNew acc ↔ x ∈ acc ∨ x ∈ l := by
  induction l generalizing acc with
  | nil => simp
  | cons c t ih =>
    rw [List.foldl_cons, ih]
    unfold insertNew
    by_cases hc : c ∈ acc
    · simp only [hc, if_true, List.mem_cons]
      constructor
      · rintro (h | h)
        · exact Or.inl h
        · exact Or.inr (Or.inr h)
      · rintro (h | h | h)
        · exact Or.inl h
        · rw [h]; exact Or.inl hc
        · exact Or.inr h
    · simp only [hc, if_false, List.mem_append, List.mem_singleton, List.mem_cons]
      tauto

/-- Membership in the deduplicated candidate list. -/
theorem mem_dedupInts (l : List Int) (x : Int) : x ∈ dedupInts l ↔ x ∈ l := by
  unfold dedupInts
  rw [mem_foldl_insertNew]
  simp

/-- Cross-validation passes trivially when neither original identifier is
present and well formed. -/
theorem validateEnt_trivial (r : Rec) (ent : Entity)
    (h1 : origCidTruthy r = false) (h2 : getValidCasCell r.cas_id = none) :
    validateEnt r ent = true := by
  unfold validateEnt
  simp [h1, h2]

/-- Cross-validation fails when the truthy original id disagrees and the
valid original CAS is absent from the extracted synonyms. -/
theorem validateEnt_fails (r : Rec) (ent : Entity) (o : Int) (oc : String)
    (ho : get_valid_cid r.pubchem_id = some o) (h0 : o ≠ 0) (hne : o ≠ ent.cid)
    (hcas : getValidCasCell r.cas_id = some oc)
    (habs : oc ∉ casExtract ent.synonyms) :
    validateEnt r ent = false := by
  have hc : (casExtract ent.synonyms).contains oc = false := by simp [habs]
  unfold validateEnt
  by_cases hs : ent.synonyms.isEmpty <;>
    simp [ho, hcas, origCidTruthy, h0, hne, hs, hc, habs]

/-- The found-by label is carried into every matched final status. -/
theorem finalStatus_fb (r : Rec) (cv : Bool) (ent : Entity) (fb : FoundBy) :
    statusFb (finalStatusOf r cv ent fb) = some fb := by
  unfold finalStatusOf
  by_cases h1 : (rowUpdates r ent fb).isEmpty <;>
    by_cases h2 : (rowParts r cv ent fb).isEmpty <;>
    simp [h1, h2, statusFb]

/-- A status fragment whose column was not updated survives into the final
status of a matched row. -/
theorem finalStatus_mem_parts (r : Rec) (cv : Bool) (ent : Entity) (fb : FoundBy)
    (p : StatusPart) (hp : p ∈ rowParts r cv ent fb)
    (hcol : ∀ cnm, partCol p = some cnm → (rowUpdates r ent fb).contains cnm = false) :
    p ∈ statusParts (finalStatusOf r cv ent fb) := by
  by_cases hu : (rowUpdates r ent fb).isEmpty
  · by_cases hpp : (rowParts r cv ent fb).isEmpty
    · exact absurd (List.isEmpty_iff.1 hpp ▸ hp) (List.not_mem_nil p)
    · unfold finalStatusOf
      rw [if_pos hu, if_neg hpp]
      simpa [statusParts] using hp
  · unfold finalStatusOf
    rw [if_neg hu]
    simp only [statusParts, List.mem_filter]
    refine ⟨hp, ?_⟩
    cases hpc : partCol p with
    | none => simp
    | some cnm =>
      have h5 := hcol cnm hpc
      simp [hpc]
      simpa using h5

/-- An updated column is named in the final status of a matched row. -/
theorem statusUpdates_of_mem (r : Rec) (cv : Bool) (ent : Entity) (fb : FoundBy)
    (cnm : String) (h : cnm ∈ rowUpdates r ent fb) :
    cnm ∈ statusUpdates (finalStatusOf r cv ent fb) := by
  have hu : ¬ (rowUpdates r ent fb).isEmpty = true := by
    intro h5
    rw [List.isEmpty_iff.1 h5] at h
    exact List.not_mem_nil cnm h
  unfold finalStatusOf
  rw [if_neg hu]
  simpa [statusUpdates] using h

/-- The identity-name comparison never touches a nonempty original value. -/
theorem iupacStep_keep (orig : Cell) (pv? : Option String)
    (h : cellEmptyOrBlank orig = false) :
    (iupacStep orig pv?).1 = orig ∧ (iupacStep orig pv?).2.2 = false := by
  cases pv? with
  | none => simp [iupacStep]
  | some pv => simp [iupacStep, h]

/-- The identity-name comparison records exactly one consistency note when a
registry name is available and the original is not NaN. -/
theorem iupacStep_note (orig : Cell) (pv : String) (h : is_nan_or_none orig = false) :
    (iupacStep orig (some pv)).2.1 =
      [if pyStrip (pyStrCell orig) == pyStrip pv then StatusPart.iupacConsistent
        else StatusPart.iupacInconsistent] := by
  simp [iupacStep, h]

/-- A missing original identity name is filled with the registry name. -/
theorem iupacStep_fill (orig : Cell) (pv : String) (h : is_nan_or_none orig = true) :
    (iupacStep orig (some pv)).1 = some pv := by
  simp [iupacStep, cellEmptyOrBlank, h]

/-- The CAS column without a valid original and a single extracted candidate
is filled and recorded. -/
theorem casStep_single (orig : Cell) (syns : List String) (x : String)
    (h1 : getValidCasCell orig = none) (h2 : casExtract syns = [x]) :
    casStep orig syns = (some x, [StatusPart.casUpdated], true) := by
  simp [casStep, h1, h2]

/-- The CAS column without a valid original and several distinct candidates
is left alone with the ambiguity recorded. -/
theorem casStep_multi (orig : Cell) (syns : List String)
    (h1 : getValidCasCell orig = none)
    (h2 : 1 < (dedupStrs (casExtract syns)).length) :
    casStep orig syns = (orig, [StatusPart.casMultiple (casExtract syns)], false) := by
  rcases h : casExtract syns with _ | ⟨x, _ | ⟨y, t⟩⟩
  · rw [h] at h2; simp [dedupStrs] at h2
  · rw [h] at h2; simp [dedupStrs] at h2
  · simp [casStep, h1, h]

/-- C8 (counterexample): the value -5 does not parse to a valid positive
integer identifier, yet the direct-id tier issues a fetch for it, because
the only guard is Python truthiness of int(float(value)), which excludes
only zero and unparsable values. -/
theorem c8_counterexample_negative_id :
    get_valid_cid (some "-5") = some (-5) ∧
    get_valid_cid (some "5.7") = some 5 ∧
    TCall.idFetch (-5) ∈ (processRow regW0 recW3).calls := by
  refine ⟨by decide, by decide, by decide⟩

/-- C8 (amended): once the name and alias tiers have found nothing, the
direct-id tier issues a fetch for exactly the truncation toward zero of the
float value of the id field, whenever that cell is present, parses, and the
truncation is nonzero; in particular negative and non-integer values do
trigger a fetch. -/
theorem c8_id_tier_guard (reg : Registry) (r : Rec)
    (hnf : (step2 reg r (step1 reg r)).found = none) :
    ∀ c, TCall.idFetch c ∈ (processRow reg r).calls ↔
      (get_valid_cid r.pubchem_id = some c ∧ c ≠ 0) := by
  intro c
  obtain ⟨d3, h3, hr3, hiff⟩ := step3_decomp reg r (step2 reg r (step1 reg r))
  rw [processRow_calls]
  have hcalls : (lookupPhase reg r).calls = (step2 reg r (step1 reg r)).calls ++ d3 := by
    rw [lookupPhase, h3]
  rw [hcalls]
  constructor
  · intro hx
    rcases List.mem_append.1 hx with h4 | h4
    · exfalso
      obtain ⟨dfa, dsa, h2, hrf, hrs⟩ := step2_decomp reg r (step1 reg r)
      rw [h2] at h4
      rcases List.mem_append.1 h4 with h5 | h5
      · have h6 := step1_rank reg r _ h5
        simp [tierRank] at h6
      · rcases List.mem_append.1 h5 with h6 | h6
        · have h7 := hrf _ h6
          simp [tierRank] at h7
        · have h7 := hrs _ h6
          simp [tierRank] at h7
    · exact ((hiff c).1 h4).2
  · rintro ⟨hv, hc0⟩
    exact List.mem_append.2 (Or.inr ((hiff c).2 ⟨hnf, hv, hc0⟩))

/-- C1: a record whose primary-name lookup returns zero candidates and whose
first alias resolves to exactly one candidate is matched via that first
alias; neither a subsequent-alias lookup nor a direct-id fetch is issued,
whatever the id field holds; and in general every trace is ordered by the
fixed tier ranks, so the tiers are attempted in the fixed order. -/
theorem c1_resolution_order (reg : Registry) (r : Rec) (n a a1 : String)
    (rest : List String) (c : Int) (ent : Entity)
    (hn : r.name = some n) (hnn : isNanStr n = false) (hnb : pyStrip n ≠ "")
    (hcids : reg.getCids n = [])
    (ha : r.aliasVal = some a) (han : isNanStr a = false) (hab : pyStrip a ≠ "")
    (hsplit : parseAliases a = a1 :: rest)
    (hfa : reg.getCids a1 = [c]) (hc0 : c ≠ 0) (hfetch : reg.fromCid c = some ent) :
    (processRow reg r).found = some (ent, FoundBy.byAliasFirst a1) ∧
    (∀ c2 : Int, TCall.idFetch c2 ∉ (processRow reg r).calls) ∧
    (∀ q : String, TCall.saCids q ∉ (processRow reg r).calls) ∧
    (∀ reg2 r2, List.Pairwise (fun x y => tierRank x ≤ tierRank y)
      (processRow reg2 r2).calls) := by
  have hs1 : step1 reg r = ⟨[TCall.nameCids n], none, true, .nameNone n⟩ := by
    simp [step1, hn, hnn, hnb, hcids]
  have hs2 : step2 reg r (step1 reg r) =
      ⟨[TCall.nameCids n, TCall.faCids a1, TCall.faFetch c],
        some (ent, .byAliasFirst a1), validateEnt r ent, .nameNone n⟩ := by
    rw [hs1]
    simp [step2, ha, han, hab, hsplit, step2core, hfa, hc0, hfetch]
  have hs3 : lookupPhase reg r =
      ⟨[TCall.nameCids n, TCall.faCids a1, TCall.faFetch c],
        some (ent, .byAliasFirst a1), validateEnt r ent, .nameNone n⟩ := by
    rw [lookupPhase, hs2]
    simp [step3]
  refine ⟨?_, ?_, ?_, ?_⟩
  · unfold processRow reconcileRow
    rw [hs3]
    simp [buildResult]
  · intro c2
    rw [processRow_calls, hs3]
    simp
  · intro q
    rw [processRow_calls, hs3]
    simp
  · intro reg2 r2
    rw [processRow_calls]
    exact lookup_calls_pairwise reg2 r2

/-- Witness for C1 at a concrete registry and record carrying a valid id. -/
theorem c1_resolution_order_witness :
    (recW1.name = some "Foo" ∧ isNanStr "Foo" = false ∧ pyStrip "Foo" ≠ "" ∧
      regW1.getCids "Foo" = [] ∧ recW1.aliasVal = some "X;Y;Z" ∧
      isNanStr "X;Y;Z" = false ∧ pyStrip "X;Y;Z" ≠ "" ∧
      parseAliases "X;Y;Z" = ["X", "Y", "Z"] ∧
      regW1.getCids "X" = [7] ∧ (7 : Int) ≠ 0 ∧ regW1.fromCid 7 = some entW ∧
      get_valid_cid recW1.pubchem_id = some 123) ∧
    (processRow regW1 recW1).found = some (entW, FoundBy.byAliasFirst "X") :=
  ⟨by decide,
    (c1_resolution_order regW1 recW1 "Foo" "X;Y;Z" "X" ["Y", "Z"] 7 entW
      (by decide) (by decide) (by decide) (by decide) (by decide) (by decide)
      (by decide) (by decide) (by decide) (by decide) (by decide)).1⟩

/-- The advisory consequences shared by every match whose lookup phase ended
with a name- or alias-tier acceptance and a failed validation flag: the row
is still matched and reconciled, the failure is reported and appears only as
a status note, and the run counter grows by one for that record. -/
theorem cvAdvisoryTail (reg : Registry) (r : Rec) (ent : Entity) (fb : FoundBy)
    (cl : List TCall) (p : PreStatus)
    (hlp : lookupPhase reg r = ⟨cl, some (ent, fb), false, p⟩)
    (hfb : isNameOrAlias fb = true) :
    (processRow reg r).found = some (ent, fb) ∧
    (processRow reg r).cvReported = true ∧
    StatusPart.cvFail ∈ statusParts (processRow reg r).status ∧
    statusFb (processRow reg r).status = some fb ∧
    (∀ recs : List Rec, cvFailCount reg (recs ++ [r]) = cvFailCount reg recs + 1) := by
  have hpr : processRow reg r =
      buildResult r ⟨cl, some (ent, fb), false, p⟩ ent fb := by
    unfold processRow reconcileRow
    rw [hlp]
  have hrep : (processRow reg r).cvReported = true := by
    rw [hpr]
    simp [buildResult, hfb]
  refine ⟨?_, hrep, ?_, ?_, ?_⟩
  · rw [hpr]
    simp [buildResult]
  · rw [hpr]
    simp only [buildResult]
    apply finalStatus_mem_parts
    · unfold rowParts
      simp [hfb]
    · intro cnm hcc
      simp [partCol] at hcc
  · rw [hpr]
    simp only [buildResult]
    exact finalStatus_fb r false ent fb
  · intro recs
    unfold cvFailCount
    rw [List.map_append, List.countP_append]
    simp [hrep]

/-- C3: a validation failure (truthy original id disagreeing with the match
and valid original CAS absent from the synonyms) on a record matched via the
primary name or via its first alias never discards the match nor skips
reconciliation: the row is still matched at that tier and reconciled, the
failure appears only as a status note, and the run counter grows by exactly
one for that record; validation passes trivially when neither original
identifier is present and well formed. -/
theorem c3_cross_validation_advisory (reg : Registry) (r : Rec)
    (c o : Int) (ent : Entity) (oc : String) (fb : FoundBy)
    (hscen :
      (∃ n, r.name = some n ∧ isNanStr n = false ∧ pyStrip n ≠ "" ∧
        reg.getCids n = [c] ∧ fb = FoundBy.byName) ∨
      (∃ n a a1 rest, r.name = some n ∧ isNanStr n = false ∧ pyStrip n ≠ "" ∧
        reg.getCids n = [] ∧ r.aliasVal = some a ∧ isNanStr a = false ∧
        pyStrip a ≠ "" ∧ parseAliases a = a1 :: rest ∧ reg.getCids a1 = [c] ∧
        c ≠ 0 ∧ fb = FoundBy.byAliasFirst a1))
    (hfetch : reg.fromCid c = some ent)
    (hoid : get_valid_cid r.pubchem_id = some o) (ho0 : o ≠ 0) (hneq : o ≠ ent.cid)
    (hcas : getValidCasCell r.cas_id = some oc) (habs : oc ∉ casExtract ent.synonyms) :
    isNameOrAlias fb = true ∧
    (processRow reg r).found = some (ent, fb) ∧
    (processRow reg r).cvReported = true ∧
    StatusPart.cvFail ∈ statusParts (processRow reg r).status ∧
    statusFb (processRow reg r).status = some fb ∧
    (∀ recs : List Rec, cvFailCount reg (recs ++ [r]) = cvFailCount reg recs + 1) ∧
    (∀ r2 ent2, origCidTruthy r2 = false → getValidCasCell r2.cas_id = none →
      validateEnt r2 ent2 = true) := by
  have hval : validateEnt r ent = false := validateEnt_fails r ent o oc hoid ho0 hneq hcas habs
  rcases hscen with ⟨n, hn, hnn, hnb, hcids, rfl⟩ |
      ⟨n, a, a1, rest, hn, hnn, hnb, hcids, ha, han, hab, hsplit, hfa, hc0, rfl⟩
  · have hlp : lookupPhase reg r =
        ⟨[TCall.nameCids n, TCall.nameFetch c], some (ent, .byName), false, .unprocessed⟩ := by
      have hs1 : step1 reg r =
          ⟨[TCall.nameCids n, TCall.nameFetch c], some (ent, .byName), false,
            .unprocessed⟩ := by
        simp [step1, hn, hnn, hnb, hcids, hfetch, hval]
      rw [lookupPhase, hs1]
      simp [step2, step3]
    obtain ⟨h1, h2, h3, h4, h5⟩ := cvAdvisoryTail reg r ent .byName _ _ hlp rfl
    exact ⟨rfl, h1, h2, h3, h4, h5, fun r2 ent2 hx hy => validateEnt_trivial r2 ent2 hx hy⟩
  · have hs1 : step1 reg r = ⟨[TCall.nameCids n], none, true, .nameNone n⟩ := by
      simp [step1, hn, hnn, hnb, hcids]
    have hs2 : step2 reg r (step1 reg r) =
        ⟨[TCall.nameCids n, TCall.faCids a1, TCall.faFetch c],
          some (ent, .byAliasFirst a1), false, .nameNone n⟩ := by
      rw [hs1]
      simp [step2, ha, han, hab, hsplit, step2core, hfa, hc0, hfetch, hval]
    have hlp : lookupPhase reg r =
        ⟨[TCall.nameCids n, TCall.faCids a1, TCall.faFetch c],
          some (ent, .byAliasFirst a1), false, .nameNone n⟩ := by
      rw [lookupPhase, hs2]
      simp [step3]
    obtain ⟨h1, h2, h3, h4, h5⟩ := cvAdvisoryTail reg r ent (.byAliasFirst a1) _ _ hlp rfl
    exact ⟨rfl, h1, h2, h3, h4, h5, fun r2 ent2 hx hy => validateEnt_trivial r2 ent2 hx hy⟩

/-- Witness for C3 exercising the first-alias branch of the scenario: a
record whose name misses, whose first alias matches, and whose original
identifiers both disagree with the matched entity. -/
theorem c3_cross_validation_advisory_witness :
    (regW1.getCids "Foo" = [] ∧ regW1.getCids "X" = [7] ∧ (7 : Int) ≠ 0 ∧
      regW1.fromCid 7 = some entW ∧ get_valid_cid recW7.pubchem_id = some 123 ∧
      (123 : Int) ≠ 0 ∧ (123 : Int) ≠ entW.cid ∧
      getValidCasCell recW7.cas_id = some "99-99-9" ∧
      "99-99-9" ∉ casExtract entW.synonyms) ∧
    ((processRow regW1 recW7).found = some (entW, FoundBy.byAliasFirst "X") ∧
      (processRow regW1 recW7).cvReported = true) :=
  ⟨by decide,
    (c3_cross_validation_advisory regW1 recW7 7 123 entW "99-99-9"
        (FoundBy.byAliasFirst "X")
        (Or.inr ⟨"Foo", "X;Y;Z", "X", ["Y", "Z"], by decide, by decide, by decide,
          by decide, by decide, by decide, by decide, by decide, by decide,
          by decide, rfl⟩)
        (by decide) (by decide) (by decide) (by decide) (by decide) (by decide)).2.1,
    (c3_cross_validation_advisory regW1 recW7 7 123 entW "99-99-9"
        (FoundBy.byAliasFirst "X")
        (Or.inr ⟨"Foo", "X;Y;Z", "X", ["Y", "Z"], by decide, by decide, by decide,
          by decide, by decide, by decide, by decide, by decide, by decide,
          by decide, rfl⟩)
        (by decide) (by decide) (by decide) (by decide) (by decide) (by decide)).2.2.1⟩

/-- Step 3 leaves an already-found row untouched. -/
theorem step3_skip (reg : Registry) (r : Rec) (st : LookOut)
    (h : st.found.isSome) : step3 reg r st = st := by
  simp [step3, h]

/-- The found compound of a processed row is that of its lookup phase. -/
theorem processRow_found (reg : Registry) (r : Rec) :
    (processRow reg r).found = (lookupPhase reg r).found := by
  unfold processRow reconcileRow
  rcases h : (lookupPhase reg r).found with _ | ⟨e, f⟩ <;> simp [h, buildResult]

/-- The final status of a matched row names its found-by label. -/
theorem processRow_statusFb (reg : Registry) (r : Rec) (ent : Entity) (fb : FoundBy)
    (h : (lookupPhase reg r).found = some (ent, fb)) :
    statusFb (processRow reg r).status = some fb := by
  unfold processRow reconcileRow
  rw [h]
  simp only [buildResult]
  exact finalStatus_fb r _ ent fb

/-- Only subsequent-alias lookups are recognized by the trace filter. -/
theorem isSaCids_rank (x : TCall) (h : isSaCidsCall x = true) : tierRank x = 2 := by
  cases x <;> simp_all [isSaCidsCall, tierRank]

/-- The filter of the subsequent-alias-phase trace is one lookup per alias. -/
theorem subPhaseCalls_filter (reg : Registry) (attempt : List String) :
    (subPhaseCalls reg attempt).filter isSaCidsCall = attempt.map TCall.saCids := by
  unfold subPhaseCalls
  by_cases hemp : attempt.isEmpty
  · rw [if_pos hemp, List.isEmpty_iff.1 hemp]
    rfl
  · rw [if_neg hemp, List.filter_append]
    have h1 : (attempt.map TCall.saCids).filter isSaCidsCall = attempt.map TCall.saCids := by
      rw [List.filter_eq_self]
      intro x hx
      rcases List.mem_map.1 hx with ⟨q, -, rfl⟩
      rfl
    rcases hcids : (subScan reg attempt ⟨[], [], [], false⟩).cids with _ | ⟨c, _ | ⟨c2, t⟩⟩ <;>
      simp [h1, isSaCidsCall]

/-- The acceptance behavior of the subsequent-alias phase: with a fetch that
always succeeds, a match is accepted exactly when one distinct candidate was
collected; the match is then attributed to the first alias that produced the
candidate; otherwise nothing is found at this tier. -/
theorem subAliasPhase_core (reg : Registry) (r : Rec) (st1 : LookOut)
    (attempt : List String) (hne : attempt ≠ [])
    (hfetch : ∀ c : Int, (reg.fromCid c).isSome) :
    ((∃ ent d, (subAliasPhase reg r st1 attempt).found = some (ent, FoundBy.byAliasSub d)) ↔
      (dedupInts (uniqueHits reg attempt)).length = 1) ∧
    (∀ c : Int, dedupInts (uniqueHits reg attempt) = [c] →
      ∃ ent d, reg.fromCid c = some ent ∧ firstFinder reg attempt c = some d ∧
        (subAliasPhase reg r st1 attempt).found = some (ent, FoundBy.byAliasSub d)) ∧
    ((dedupInts (uniqueHits reg attempt)).length ≠ 1 →
      (subAliasPhase reg r st1 attempt).found = none) := by
  have hemp : attempt.isEmpty = false := by
    cases attempt
    · exact absurd rfl hne
    · rfl
  have hcids : (subScan reg attempt ⟨[], [], [], false⟩).cids
      = dedupInts (uniqueHits reg attempt) := by
    rw [subScan_cids]
    rfl
  rcases hd : dedupInts (uniqueHits reg attempt) with _ | ⟨c, _ | ⟨c2, t⟩⟩
  · have h0 : (subScan reg attempt ⟨[], [], [], false⟩).cids = [] := hcids.trans hd
    have hf : (subAliasPhase reg r st1 attempt).found = none := by
      simp [subAliasPhase, hemp, h0]
    refine ⟨?_, ?_, fun _ => hf⟩
    · constructor
      · rintro ⟨ent, d, hsome⟩
        rw [hf] at hsome
        exact Option.noConfusion hsome
      · intro h1
        simp at h1
    · intro c hc
      exact List.noConfusion hc
  · have h0 : (subScan reg attempt ⟨[], [], [], false⟩).cids = [c] := hcids.trans hd
    obtain ⟨ent, hent⟩ := Option.isSome_iff_exists.1 (hfetch c)
    have hmemc : c ∈ uniqueHits reg attempt := by
      have : c ∈ dedupInts (uniqueHits reg attempt) := by rw [hd]; simp
      exact (mem_dedupInts _ c).1 this
    obtain ⟨al, hal, halc⟩ := List.mem_filterMap.1 hmemc
    have hfindsome : (firstFinder reg attempt c).isSome := by
      rw [firstFinder, List.find?_isSome]
      exact ⟨al, hal, by simp [halc]⟩
    obtain ⟨d, hdfind⟩ := Option.isSome_iff_exists.1 hfindsome
    have hamap : amapGet (subScan reg attempt ⟨[], [], [], false⟩).amap c = some d := by
      rw [subScan_amapGet]
      simpa [amapGet] using hdfind
    have hff : (subAliasPhase reg r st1 attempt).found
        = some (ent, FoundBy.byAliasSub d) := by
      simp [subAliasPhase, hemp, h0, hent, hamap]
    refine ⟨?_, ?_, ?_⟩
    · exact iff_of_true ⟨ent, d, hff⟩ rfl
    · intro c4 hc4
      have hcc : c4 = c := by
        have h5 : ([c] : List Int) = [c4] := hc4
        injection h5 with h6 h7
        exact h6.symm
      rw [hcc]
      exact ⟨ent, d, hent, hdfind, hff⟩
    · intro h1
      exact absurd rfl h1
  · have h0 : (subScan reg attempt ⟨[], [], [], false⟩).cids = c :: c2 :: t := hcids.trans hd
    have hf : (subAliasPhase reg r st1 attempt).found = none := by
      simp [subAliasPhase, hemp, h0]
    refine ⟨?_, ?_, fun _ => hf⟩
    · constructor
      · rintro ⟨ent, d, hsome⟩
        rw [hf] at hsome
        exact Option.noConfusion hsome
      · intro h1
        simp at h1
    · intro c4 hc4
      exact absurd hc4 (by simp)

/-- When the name tier found nothing, the alias cell is usable, and the
first alias does not resolve uniquely while further aliases exist, step 2
runs the bounded subsequent-alias phase. -/
theorem step2_to_subPhase (reg : Registry) (r : Rec) (a a1 : String) (rest : List String)
    (hs1f : (step1 reg r).found = none)
    (ha : r.aliasVal = some a) (han : isNanStr a = false) (hab : pyStrip a ≠ "")
    (hsplit : parseAliases a = a1 :: rest) (hrest : rest ≠ [])
    (hfa : (reg.getCids a1).length ≠ 1) :
    ∃ p, step2 reg r (step1 reg r) =
      subAliasPhase reg r
        ⟨(step1 reg r).calls ++ [TCall.faCids a1], none, (step1 reg r).cv, p⟩
        (rest.take max_subsequent_aliases_to_try) := by
  have hrest2 : rest.isEmpty = false := by
    cases rest
    · exact absurd rfl hrest
    · rfl
  rcases hc1 : reg.getCids a1 with _ | ⟨c0, _ | ⟨c02, t0⟩⟩
  · exact ⟨(step1 reg r).pre,
      by simp [step2, hs1f, ha, han, hab, hsplit, step2core, hc1, hrest2]⟩
  · exact absurd (by rw [hc1]; rfl) hfa
  · have hlt : (1 : Nat) < t0.length + 1 + 1 := by omega
    refine ⟨guardSet (step1 reg r).pre (.faMulti a1 (t0.length + 1 + 1)), ?_⟩
    simp [step2, hs1f, ha, han, hab, hsplit, step2core, hc1, hrest2, hlt]

/-- C2: once the primary name and the first alias have failed to resolve
uniquely, exactly the bounded list of further aliases is looked up, one call
each; a match is accepted at this tier if and only if exactly one distinct
candidate id results over those lookups (registry fetches assumed to
succeed); the accepted match and the final status are attributed to the
first alias that produced the agreeing candidate; and with divergent or no
candidates nothing is accepted at this tier and the record falls through to
the direct-id tier, whose fetch is issued whenever the id field is truthy. -/
theorem c2_subsequent_alias_consistency (reg : Registry) (r : Rec) (a a1 : String)
    (rest : List String)
    (hs1f : (step1 reg r).found = none)
    (ha : r.aliasVal = some a) (han : isNanStr a = false) (hab : pyStrip a ≠ "")
    (hsplit : parseAliases a = a1 :: rest) (hrest : rest ≠ [])
    (hfa : (reg.getCids a1).length ≠ 1)
    (hfetch : ∀ c : Int, (reg.fromCid c).isSome) :
    ((processRow reg r).calls.filter isSaCidsCall
      = (rest.take max_subsequent_aliases_to_try).map TCall.saCids) ∧
    ((∃ ent d, (step2 reg r (step1 reg r)).found = some (ent, FoundBy.byAliasSub d)) ↔
      (dedupInts (uniqueHits reg (rest.take max_subsequent_aliases_to_try))).length = 1) ∧
    (∀ c, dedupInts (uniqueHits reg (rest.take max_subsequent_aliases_to_try)) = [c] →
      ∃ ent d, reg.fromCid c = some ent ∧
        firstFinder reg (rest.take max_subsequent_aliases_to_try) c = some d ∧
        (processRow reg r).found = some (ent, FoundBy.byAliasSub d) ∧
        statusFb (processRow reg r).status = some (FoundBy.byAliasSub d)) ∧
    ((dedupInts (uniqueHits reg (rest.take max_subsequent_aliases_to_try))).length ≠ 1 →
      (step2 reg r (step1 reg r)).found = none ∧
      (∀ c, get_valid_cid r.pubchem_id = some c → c ≠ 0 →
        TCall.idFetch c ∈ (processRow reg r).calls)) := by
  have hattne : rest.take max_subsequent_aliases_to_try ≠ [] := by
    cases rest
    · exact absurd rfl hrest
    · intro h
      exact List.noConfusion h
  obtain ⟨p1, hstep2⟩ := step2_to_subPhase reg r a a1 rest hs1f ha han hab hsplit hrest hfa
  have hcore := subAliasPhase_core reg r
    ⟨(step1 reg r).calls ++ [TCall.faCids a1], none, (step1 reg r).cv, p1⟩
    (rest.take max_subsequent_aliases_to_try) hattne hfetch
  obtain ⟨d3, h3, hr3, hiff⟩ := step3_decomp reg r (step2 reg r (step1 reg r))
  have hcallsline : (processRow reg r).calls = (step2 reg r (step1 reg r)).calls ++ d3 := by
    rw [processRow_calls, lookupPhase, h3]
  refine ⟨?_, ?_, ?_, ?_⟩
  · rw [hcallsline, List.filter_append]
    have hd3 : d3.filter isSaCidsCall = [] := by
      rw [List.filter_eq_nil_iff]
      intro x hx hsa
      have h5 := hr3 x hx
      rw [isSaCids_rank x hsa] at h5
      exact absurd h5 (by decide)
    have hs2c : (step2 reg r (step1 reg r)).calls.filter isSaCidsCall
        = (rest.take max_subsequent_aliases_to_try).map TCall.saCids := by
      rw [hstep2, subAliasPhase_calls]
      rw [List.filter_append]
      have hs1c : ((step1 reg r).calls ++ [TCall.faCids a1]).filter isSaCidsCall = [] := by
        rw [List.filter_eq_nil_iff]
        intro x hx hsa
        rcases List.mem_append.1 hx with h5 | h5
        · have h6 := step1_rank reg r x h5
          rw [isSaCids_rank x hsa] at h6
          exact absurd h6 (by decide)
        · rw [List.mem_singleton.1 h5] at hsa
          exact Bool.noConfusion hsa
      rw [hs1c, subPhaseCalls_filter]
      rfl
    rw [hd3, hs2c, List.append_nil]
  · rw [hstep2]
    exact hcore.1
  · intro c hc
    obtain ⟨ent, d, hent, hfind, hfound2⟩ := hcore.2.1 c hc
    have h2f : (step2 reg r (step1 reg r)).found = some (ent, FoundBy.byAliasSub d) := by
      rw [hstep2]
      exact hfound2
    have hlpf : (lookupPhase reg r).found = some (ent, FoundBy.byAliasSub d) := by
      unfold lookupPhase
      rw [step3_skip reg r _ (by rw [h2f]; rfl)]
      exact h2f
    refine ⟨ent, d, hent, hfind, ?_, ?_⟩
    · rw [processRow_found]
      exact hlpf
    · exact processRow_statusFb reg r ent (FoundBy.byAliasSub d) hlpf
  · intro hne1
    have h2f : (step2 reg r (step1 reg r)).found = none := by
      rw [hstep2]
      exact hcore.2.2 hne1
    refine ⟨h2f, ?_⟩
    intro c hv hc0
    rw [hcallsline]
    exact List.mem_append.2 (Or.inr ((hiff c).2 ⟨h2f, hv, hc0⟩))

/-- Witness for C2: both subsequent aliases agree on candidate 999 and the
match is attributed to the first of them. -/
theorem c2_subsequent_alias_consistency_witness :
    ((step1 regW2t recW2).found = none ∧
      recW2.aliasVal = some "CompoundX;CompoundY;CompoundZ" ∧
      isNanStr "CompoundX;CompoundY;CompoundZ" = false ∧
      pyStrip "CompoundX;CompoundY;CompoundZ" ≠ "" ∧
      parseAliases "CompoundX;CompoundY;CompoundZ"
        = ["CompoundX", "CompoundY", "CompoundZ"] ∧
      (regW2t.getCids "CompoundX").length ≠ 1 ∧
      (∀ c : Int, (regW2t.fromCid c).isSome) ∧
      dedupInts (uniqueHits regW2t
        (["CompoundY", "CompoundZ"].take max_subsequent_aliases_to_try)) = [999]) ∧
    (∃ ent d, regW2t.fromCid 999 = some ent ∧
      firstFinder regW2t
        (["CompoundY", "CompoundZ"].take max_subsequent_aliases_to_try) 999 = some d ∧
      (processRow regW2t recW2).found = some (ent, FoundBy.byAliasSub d) ∧
      statusFb (processRow regW2t recW2).status = some (FoundBy.byAliasSub d)) :=
  ⟨⟨by decide, by decide, by decide, by decide, by decide, by decide,
      fun _ => rfl, by decide⟩,
    (c2_subsequent_alias_consistency regW2t recW2 "CompoundX;CompoundY;CompoundZ"
      "CompoundX" ["CompoundY", "CompoundZ"]
      (by decide) (by decide) (by decide) (by decide) (by decide)
      (by decide) (by decide) (fun _ => rfl)).2.2.1 999 (by decide)⟩

/-- C10: in the subsequent-alias tier, an attempted alias returning several
candidates does not veto acceptance, whichever of the two attempted aliases
it is: when the other attempted alias resolves uniquely, its candidate is
accepted and the match attributed to it; the multi-candidate flag only
selects the wording of the status note in the case where no candidate at all
was collected. -/
theorem c10_multi_candidate_no_veto (reg : Registry) (r : Rec) (a a1 a2 a3 : String)
    (rest2 : List String)
    (hs1f : (step1 reg r).found = none)
    (ha : r.aliasVal = some a) (han : isNanStr a = false) (hab : pyStrip a ≠ "")
    (hsplit : parseAliases a = a1 :: a2 :: a3 :: rest2)
    (hfa : (reg.getCids a1).length ≠ 1) :
    (∀ (am au : String) (x y : Int) (lm : List Int) (c : Int) (ent : Entity),
      (am = a2 ∧ au = a3 ∨ am = a3 ∧ au = a2) →
      reg.getCids am = x :: y :: lm → reg.getCids au = [c] →
      reg.fromCid c = some ent →
      (processRow reg r).found = some (ent, FoundBy.byAliasSub au)) ∧
    (∀ (x y : Int) (lm : List Int), reg.getCids a2 = x :: y :: lm →
      reg.getCids a3 = [] →
      (step2 reg r (step1 reg r)).found = none ∧
      ∃ p, (step2 reg r (step1 reg r)).pre
        = PreStatus.subCombined p (SubNote.multiFound [a2, a3])) ∧
    (reg.getCids a2 = [] → reg.getCids a3 = [] →
      (step2 reg r (step1 reg r)).found = none ∧
      ∃ p, (step2 reg r (step1 reg r)).pre
        = PreStatus.subCombined p (SubNote.noUnique [a2, a3])) := by
  obtain ⟨p1, hstep2⟩ := step2_to_subPhase reg r a a1 (a2 :: a3 :: rest2) hs1f ha han hab
    hsplit (by intro h; exact List.noConfusion h) hfa
  have htake : (a2 :: a3 :: rest2).take max_subsequent_aliases_to_try = [a2, a3] := rfl
  rw [htake] at hstep2
  refine ⟨?_, ?_, ?_⟩
  · rintro am au x y lm c ent (⟨he1, he2⟩ | ⟨he1, he2⟩) hm hu hfc
    · rw [he1] at hm
      rw [he2] at hu
      rw [he2]
      have hacc : subScan reg [a2, a3] ⟨[], [], [], false⟩
          = ⟨[TCall.saCids a2, TCall.saCids a3], [c], [(c, a3)], true⟩ := by
        simp [subScan, hm, hu, insertNew, amapInsert]
      have h2f : (step2 reg r (step1 reg r)).found = some (ent, FoundBy.byAliasSub a3) := by
        rw [hstep2]
        simp [subAliasPhase, hacc, amapGet, hfc]
      have hlpf : (lookupPhase reg r).found = some (ent, FoundBy.byAliasSub a3) := by
        unfold lookupPhase
        rw [step3_skip reg r _ (by rw [h2f]; rfl)]
        exact h2f
      rw [processRow_found]
      exact hlpf
    · rw [he1] at hm
      rw [he2] at hu
      rw [he2]
      have hacc : subScan reg [a2, a3] ⟨[], [], [], false⟩
          = ⟨[TCall.saCids a2, TCall.saCids a3], [c], [(c, a2)], true⟩ := by
        simp [subScan, hu, hm, insertNew, amapInsert]
      have h2f : (step2 reg r (step1 reg r)).found = some (ent, FoundBy.byAliasSub a2) := by
        rw [hstep2]
        simp [subAliasPhase, hacc, amapGet, hfc]
      have hlpf : (lookupPhase reg r).found = some (ent, FoundBy.byAliasSub a2) := by
        unfold lookupPhase
        rw [step3_skip reg r _ (by rw [h2f]; rfl)]
        exact h2f
      rw [processRow_found]
      exact hlpf
  · intro x y lm hm h3
    have hacc : subScan reg [a2, a3] ⟨[], [], [], false⟩
        = ⟨[TCall.saCids a2, TCall.saCids a3], [], [], true⟩ := by
      simp [subScan, hm, h3]
    rw [hstep2]
    constructor
    · simp [subAliasPhase, hacc]
    · exact ⟨p1, by simp [subAliasPhase, hacc]⟩
  · intro hm h3
    have hacc : subScan reg [a2, a3] ⟨[], [], [], false⟩
        = ⟨[TCall.saCids a2, TCall.saCids a3], [], [], false⟩ := by
      simp [subScan, hm, h3]
    rw [hstep2]
    constructor
    · simp [subAliasPhase, hacc]
    · exact ⟨p1, by simp [subAliasPhase, hacc]⟩

/-- Witness for C10: alias B returns three candidates, alias C returns one,
and the record is matched via C. -/
theorem c10_multi_candidate_no_veto_witness :
    ((step1 regW3 recW6).found = none ∧
      recW6.aliasVal = some "A;B;C" ∧ isNanStr "A;B;C" = false ∧
      pyStrip "A;B;C" ≠ "" ∧ parseAliases "A;B;C" = ["A", "B", "C"] ∧
      (regW3.getCids "A").length ≠ 1 ∧
      regW3.getCids "B" = [1, 2, 3] ∧ regW3.getCids "C" = [999] ∧
      regW3.fromCid 999 = some entW2) ∧
    (processRow regW3 recW6).found = some (entW2, FoundBy.byAliasSub "C") :=
  ⟨by decide,
    (c10_multi_candidate_no_veto regW3 recW6 "A;B;C" "A" "B" "C" []
      (by decide) (by decide) (by decide) (by decide) (by decide) (by decide)).1
      "B" "C" 1 2 [3] 999 entW2 (Or.inl ⟨rfl, rfl⟩) (by decide) (by decide) (by decide)⟩

/-- A cell that is neither missing, NaN nor blank is in particular not NaN. -/
theorem not_nan_of_nonempty (c : Cell) (h : cellEmptyOrBlank c = false) :
    is_nan_or_none c = false := by
  unfold cellEmptyOrBlank at h
  exact (Bool.or_eq_false_iff.1 h).1

/-- C4: the identity-name column of a matched record is never overwritten
while its original value is nonempty: the output value equals the input,
the column is not recorded as updated, and only a consistency note is
written; the overwrite happens when the original value is missing. -/
theorem c4_identity_name_protection (reg : Registry) (r : Rec) (ent : Entity)
    (fb : FoundBy) (hfound : (lookupPhase reg r).found = some (ent, fb))
    (hne : cellEmptyOrBlank r.name = false) :
    (processRow reg r).newName = r.name ∧
    name_col ∉ (processRow reg r).updates ∧
    (∀ pv, ent.iupac_name = some pv →
      (if pyStrip (pyStrCell r.name) == pyStrip pv then StatusPart.iupacConsistent
        else StatusPart.iupacInconsistent) ∈ statusParts (processRow reg r).status) ∧
    (∀ reg2 r2 ent2 fb2, (lookupPhase reg2 r2).found = some (ent2, fb2) →
      ∀ pv2, is_nan_or_none r2.name = true → ent2.iupac_name = some pv2 →
      (processRow reg2 r2).newName = some pv2) := by
  have hpr : processRow reg r = buildResult r (lookupPhase reg r) ent fb := by
    unfold processRow reconcileRow
    rw [hfound]
  have hk := iupacStep_keep r.name ent.iupac_name hne
  have hupd : name_col ∉ rowUpdates r ent fb := by
    unfold rowUpdates
    rw [hk.2]
    by_cases h1 : (idUpdatePack r ent fb).2.2 <;>
      by_cases h2 : (casStep r.cas_id ent.synonyms).2.2 <;>
        simp [h1, h2, name_col, pubchem_id_col, cas_id_col]
  refine ⟨?_, ?_, ?_, ?_⟩
  · rw [hpr]
    simp only [buildResult]
    exact hk.1
  · rw [hpr]
    simp only [buildResult]
    exact hupd
  · intro pv hpv
    have hnote := iupacStep_note r.name pv (not_nan_of_nonempty r.name hne)
    rw [hpr]
    simp only [buildResult]
    apply finalStatus_mem_parts
    · unfold rowParts
      rw [hpv, hnote]
      simp
    · intro cnm hcc
      have hcn : cnm = name_col := by
        by_cases hcond : (pyStrip (pyStrCell r.name) == pyStrip pv) = true <;>
          simp [hcond, partCol] at hcc <;> exact hcc.symm
      rw [hcn]
      simpa using hupd
  · intro reg2 r2 ent2 fb2 hf2 pv2 hnan2 hpv2
    have hpr2 : processRow reg2 r2 = buildResult r2 (lookupPhase reg2 r2) ent2 fb2 := by
      unfold processRow reconcileRow
      rw [hf2]
    rw [hpr2]
    simp only [buildResult]
    rw [hpv2]
    exact iupacStep_fill r2.name pv2 hnan2

/-- Witness for C4 at a concrete matched record whose name differs from the
registry name. -/
theorem c4_identity_name_protection_witness :
    ((lookupPhase regW4 recW4).found = some (entW, FoundBy.byName) ∧
      cellEmptyOrBlank recW4.name = false) ∧
    (processRow regW4 recW4).newName = recW4.name :=
  ⟨by decide,
    (c4_identity_name_protection regW4 recW4 entW FoundBy.byName
      (by decide) (by decide)).1⟩

/-- C9: for the CAS column of a matched record without a valid original
value, a single extracted candidate is filled in and recorded as an update
in the status, while more than one distinct candidate leaves the cell
unchanged, records no update, and notes the ambiguity in the status. -/
theorem c9_cas_fill_and_ambiguity (reg : Registry) (r : Rec) (ent : Entity)
    (fb : FoundBy) (hfound : (lookupPhase reg r).found = some (ent, fb))
    (hnone : getValidCasCell r.cas_id = none) :
    (∀ x, casExtract ent.synonyms = [x] →
      (processRow reg r).newCas = some x ∧
      cas_id_col ∈ (processRow reg r).updates ∧
      cas_id_col ∈ statusUpdates (processRow reg r).status) ∧
    (1 < (dedupStrs (casExtract ent.synonyms)).length →
      (processRow reg r).newCas = r.cas_id ∧
      cas_id_col ∉ (processRow reg r).updates ∧
      StatusPart.casMultiple (casExtract ent.synonyms) ∈
        statusParts (processRow reg r).status) := by
  have hpr : processRow reg r = buildResult r (lookupPhase reg r) ent fb := by
    unfold processRow reconcileRow
    rw [hfound]
  constructor
  · intro x hx
    have hcs := casStep_single r.cas_id ent.synonyms x hnone hx
    have hmem : cas_id_col ∈ rowUpdates r ent fb := by
      unfold rowUpdates
      rw [hcs]
      simp
    refine ⟨?_, ?_, ?_⟩
    · rw [hpr]
      simp only [buildResult]
      rw [hcs]
    · rw [hpr]
      simp only [buildResult]
      exact hmem
    · rw [hpr]
      simp only [buildResult]
      exact statusUpdates_of_mem r _ ent fb cas_id_col hmem
  · intro hgt
    have hcs := casStep_multi r.cas_id ent.synonyms hnone hgt
    have hnupd : cas_id_col ∉ rowUpdates r ent fb := by
      unfold rowUpdates
      rw [hcs]
      by_cases h1 : (idUpdatePack r ent fb).2.2 <;>
        by_cases h2 : (iupacStep r.name ent.iupac_name).2.2 <;>
          simp [h1, h2, cas_id_col, pubchem_id_col, name_col]
    refine ⟨?_, ?_, ?_⟩
    · rw [hpr]
      simp only [buildResult]
      rw [hcs]
    · rw [hpr]
      simp only [buildResult]
      exact hnupd
    · rw [hpr]
      simp only [buildResult]
      apply finalStatus_mem_parts
      · unfold rowParts
        rw [hcs]
        simp
      · intro cnm hcc
        have hcn : cnm = cas_id_col := by
          simp [partCol] at hcc
          exact hcc.symm
        rw [hcn]
        simpa using hnupd

/-- Witness for C9 at a concrete matched record whose synonym list carries
exactly one CAS-shaped entry. -/
theorem c9_cas_fill_and_ambiguity_witness :
    ((lookupPhase regW4 recW5).found = some (entW, FoundBy.byName) ∧
      getValidCasCell recW5.cas_id = none ∧
      casExtract entW.synonyms = ["50-00-0"]) ∧
    ((processRow regW4 recW5).newCas = some "50-00-0" ∧
      cas_id_col ∈ (processRow regW4 recW5).updates) :=
  ⟨by decide,
    ⟨((c9_cas_fill_and_ambiguity regW4 recW5 entW FoundBy.byName
        (by decide) (by decide)).1 "50-00-0" (by decide)).1,
      ((c9_cas_fill_and_ambiguity regW4 recW5 entW FoundBy.byName
        (by decide) (by decide)).1 "50-00-0" (by decide)).2.1⟩⟩

/-- Witness for the amended C8 theorem at a concrete record and registry. -/
theorem c8_id_tier_guard_witness :
    (step2 regW0 recW3 (step1 regW0 recW3)).found = none ∧
    (TCall.idFetch (-5) ∈ (processRow regW0 recW3).calls ↔
      (get_valid_cid recW3.pubchem_id = some (-5) ∧ (-5 : Int) ≠ 0)) :=
  ⟨by decide, c8_id_tier_guard regW0 recW3 (by decide) (-5)⟩

end Resolver

namespace DJoin

/-- C6 (code bug evidence): the source normalizer turns a missing cell into
the canonical key nan instead of invalid (pandas astype renders NaN as the
string nan, and the replacement to None only matches the empty string,
contradicting the docstring of normalize_column_vectorized), and it keeps
the underscore (the regex word class) although the claim and the comment in
the code say only letters, digits and whitespace are kept. -/
theorem c6_normalize_code_bug_evidence :
    normalizeOne none = some "nan" ∧
    normalize_str "a_b" = "a_b" ∧
    spec_normalize "a_b" = "ab" ∧
    normalizeOne (some "a_b") ≠ some (spec_normalize "a_b") := by
  refine ⟨by decide, by decide, by decide, by decide⟩

/-- C7 (code bug evidence): idempotence of the cell-level normalizer fails
on a punctuation-only string, whose first normalization is invalid (None)
and whose second normalization is the key nan, through the same NaN
rendering slip as in C6. -/
theorem c7_idempotence_code_bug_evidence :
    normalizeOne (some "!!!") = none ∧
    normalizeOne (normalizeOne (some "!!!")) = some "nan" ∧
    normalizeOne (normalizeOne (some "!!!")) ≠ normalizeOne (some "!!!") := by
  refine ⟨by decide, by decide, by decide⟩

/-- Reading a cell of a concatenation: the left part has priority. -/
theorem getCell_append (r s : Row) (c : String) :
    getCell (r ++ s) c =
      (match r.find? (fun p => p.1 == c) with
        | some p => p.2
        | none => getCell s c) := by
  unfold getCell
  rw [List.find?_append]
  cases r.find? (fun p => p.1 == c) <;> simp

/-- A row without a pair named c reads none at c. -/
theorem getCell_not_mem (r : Row) (c : String) (h : ∀ p ∈ r, p.1 ≠ c) :
    getCell r c = none := by
  unfold getCell
  have h0 : r.find? (fun p => p.1 == c) = none :=
    List.find?_eq_none.2 (fun p hp => by simpa using h p hp)
  rw [h0]

/-- The first pair named c is unaffected by removing pairs named nm. -/
theorem find?_filter_ne (t : Row) (c nm : String) (h : c ≠ nm) :
    (t.filter (fun p => p.1 != nm)).find? (fun p => p.1 == c)
      = t.find? (fun p => p.1 == c) := by
  induction t with
  | nil => rfl
  | cons p t2 ih =>
    rw [List.filter_cons]
    by_cases hp : p.1 = nm
    · have hb : (p.1 != nm) = false := by simp [hp]
      have hpc : (p.1 == c) = false := by
        simp only [beq_eq_false_iff_ne, ne_eq, hp]
        exact fun he => h he.symm
      rw [hb, if_neg Bool.false_ne_true, ih, List.find?_cons, hpc]
    · have hb : (p.1 != nm) = true := by simp [hp]
      rw [hb, if_pos rfl, List.find?_cons, List.find?_cons]
      cases hpc : (p.1 == c)
      · exact ih
      · rfl

/-- Reading a cell through the removal of a differently-named column. -/
theorem getCell_filter_ne (r : Row) (c nm : String) (h : c ≠ nm) :
    getCell (r.filter (fun p => p.1 != nm)) c = getCell r c := by
  unfold getCell
  rw [find?_filter_ne r c nm h]

/-- A projection to columns not containing c has no pair named c. -/
theorem find?_restrict_not_mem (u : List String) (r2 : Row) (c : String) (h : c ∉ u) :
    (restrictRow u r2).find? (fun p => p.1 == c) = none := by
  apply List.find?_eq_none.2
  intro p hp
  rcases List.mem_map.1 hp with ⟨cnm, hcnm, rfl⟩
  simp only [beq_iff_eq]
  intro he
  exact h (he ▸ hcnm)

/-- Appending pairs that do not carry the read column does not change the
read. -/
theorem getCell_append_right_nofind (r s : Row) (c : String)
    (h : s.find? (fun p => p.1 == c) = none) :
    getCell (r ++ s) c = getCell r c := by
  unfold getCell
  rw [List.find?_append, h]
  cases r.find? (fun p => p.1 == c) <;> simp

/-- The normalized-key pair of a prepared row is found after the original
pairs. -/
theorem find?_norm_of_shape (r0 : Row) (v : Cell)
    (h : ∀ p ∈ r0, p.1 ≠ NORMALIZED_NAME_COLUMN) :
    (r0 ++ [(NORMALIZED_NAME_COLUMN, v)]).find?
      (fun p => p.1 == NORMALIZED_NAME_COLUMN) = some (NORMALIZED_NAME_COLUMN, v) := by
  rw [List.find?_append]
  have h0 : r0.find? (fun p => p.1 == NORMALIZED_NAME_COLUMN) = none :=
    List.find?_eq_none.2 (fun p hp => by simpa using h p hp)
  rw [h0]
  rfl

/-- The key of a row extended on the right is the key of the row, whenever
the row itself carries the key pair. -/
theorem rowKey_append_left (r1 s : Row)
    (h : (r1.find? (fun p => p.1 == NORMALIZED_NAME_COLUMN)).isSome) :
    rowKey (r1 ++ s) = rowKey r1 := by
  unfold rowKey getCell
  rw [List.find?_append]
  rcases hf : r1.find? (fun p => p.1 == NORMALIZED_NAME_COLUMN) with _ | p
  · rw [hf] at h
    exact absurd h (by simp)
  · rw [hf]
    rfl

/-- Every surviving row of the deduplication came from the input list. -/
theorem dedupRows_subset (l : List Row) (seen : List Cell) :
    ∀ r ∈ dedupRows l seen, r ∈ l := by
  induction l generalizing seen with
  | nil => simp [dedupRows]
  | cons r t ih =>
    intro r2 h2
    unfold dedupRows at h2
    by_cases hk : rowKey r ∈ seen
    · rw [if_pos hk] at h2
      exact List.mem_cons_of_mem r (ih seen r2 h2)
    · rw [if_neg hk] at h2
      rcases List.mem_cons.1 h2 with he | h3
      · rw [he]
        exact List.mem_cons_self _ _
      · exact List.mem_cons_of_mem r (ih _ r2 h3)

/-- After deduplication the keys are pairwise distinct, and none of them was
already seen. -/
theorem dedupRows_keys_nodup (l : List Row) (seen : List Cell) :
    ((dedupRows l seen).map rowKey).Nodup ∧
      ∀ k ∈ (dedupRows l seen).map rowKey, k ∉ seen := by
  induction l generalizing seen with
  | nil => simp [dedupRows]
  | cons r t ih =>
    by_cases hk : rowKey r ∈ seen
    · unfold dedupRows
      rw [if_pos hk]
      exact ih seen
    · unfold dedupRows
      rw [if_neg hk]
      obtain ⟨ihn, ihs⟩ := ih (rowKey r :: seen)
      refine ⟨?_, ?_⟩
      · rw [List.map_cons, List.nodup_cons]
        refine ⟨?_, ihn⟩
        intro hmem
        exact (ihs _ hmem) (List.mem_cons_self _ _)
      · intro k hkm
        rw [List.map_cons] at hkm
        rcases List.mem_cons.1 hkm with rfl | h3
        · exact hk
        · intro hks
          exact (ihs k h3) (List.mem_cons_of_mem _ hks)

/-- Deduplication keeps, for each unseen key, exactly the first row of the
input carrying that key. -/
theorem dedupRows_find? (l : List Row) (seen : List Cell) (k : Cell) (hk : k ∉ seen) :
    (dedupRows l seen).find? (fun r => rowKey r == k)
      = l.find? (fun r => rowKey r == k) := by
  induction l generalizing seen with
  | nil => simp [dedupRows]
  | cons r t ih =>
    by_cases hks : rowKey r ∈ seen
    · have hne : (rowKey r == k) = false := by
        simp only [beq_eq_false_iff_ne, ne_eq]
        intro he
        exact hk (he ▸ hks)
      unfold dedupRows
      rw [if_pos hks]
      rw [ih seen hk]
      simp [List.find?_cons, hne]
    · unfold dedupRows
      rw [if_neg hks]
      cases hpk : (rowKey r == k)
      · have hk2 : k ∉ rowKey r :: seen := by
          intro hx
          rcases List.mem_cons.1 hx with he | hx2
          · rw [he] at hpk
            simp at hpk
          · exact hk hx2
        simp [List.find?_cons, hpk]
        exact ih _ hk2
      · simp [List.find?_cons, hpk]

/-- The columns of a prepared frame: the original schema plus the key. -/
theorem prepare_cols (df : DF) (mc : String) (hmc : mc ∈ df.cols) :
    (prepare_for_merge df mc).cols = df.cols ++ [NORMALIZED_NAME_COLUMN] := by
  unfold prepare_for_merge
  rw [if_pos hmc]

/-- Every prepared row is an original row extended by its computed valid
key. -/
theorem prepare_rows_shape (df : DF) (mc : String) (hmc : mc ∈ df.cols)
    (hr : ∀ r ∈ df.rows, ∀ p ∈ r, p.1 ≠ NORMALIZED_NAME_COLUMN) :
    ∀ r1 ∈ (prepare_for_merge df mc).rows,
      ∃ r0 ∈ df.rows, ∃ k : String,
        r1 = r0 ++ [(NORMALIZED_NAME_COLUMN, some k)] ∧ rowKey r1 = some k := by
  intro r1 h1
  unfold prepare_for_merge at h1
  rw [if_pos hmc] at h1
  have h2 := dedupRows_subset _ _ r1 h1
  rw [List.mem_filter] at h2
  obtain ⟨h3, h4⟩ := h2
  rcases List.mem_map.1 h3 with ⟨r0, hr0, rfl⟩
  have hkey : rowKey (addNorm mc r0) = normalizeOne (getCell r0 mc) := by
    unfold rowKey addNorm
    unfold getCell
    rw [find?_norm_of_shape r0 _ (hr r0 hr0)]
  rcases hv : normalizeOne (getCell r0 mc) with _ | k
  · exfalso
    have h5 : (rowKey (addNorm mc r0)).isSome = true := by simpa using h4
    rw [hkey, hv] at h5
    simp at h5
  · refine ⟨r0, hr0, k, ?_, ?_⟩
    · unfold addNorm
      rw [hv]
    · rw [hkey, hv]

/-- The keys of a prepared frame are pairwise distinct. -/
theorem prepare_keys_nodup (df : DF) (mc : String) :
    ((prepare_for_merge df mc).rows.map rowKey).Nodup := by
  unfold prepare_for_merge
  by_cases hmc : mc ∈ df.cols
  · rw [if_pos hmc]
    exact (dedupRows_keys_nodup _ _).1
  · rw [if_neg hmc]
    simp

/-- The surviving row for each key is the first valid row of the original
order carrying that key. -/
theorem prepare_keep_first (df : DF) (mc : String) (hmc : mc ∈ df.cols) (k : Cell) :
    (prepare_for_merge df mc).rows.find? (fun r => rowKey r == k)
      = ((df.rows.map (addNorm mc)).filter (fun r => (rowKey r).isSome)).find?
          (fun r => rowKey r == k) := by
  unfold prepare_for_merge
  rw [if_pos hmc]
  exact dedupRows_find? _ [] k (by simp)

/-- Each joined row is a left row extended by the projection of its unique
partner. -/
theorem joinRows_mem (rows1 rows2 : List Row) (u : List String) :
    ∀ j ∈ joinRows rows1 rows2 u, ∃ r1 ∈ rows1, ∃ r2 ∈ rows2,
      j = r1 ++ restrictRow u r2 := by
  intro j hj
  rcases List.mem_filterMap.1 hj with ⟨r1, h1, h2⟩
  rcases hf : rows2.find? (fun r2 => rowKey r2 == rowKey r1) with _ | r2
  · rw [hf] at h2
    exact Option.noConfusion h2
  · rw [hf] at h2
    exact ⟨r1, h1, r2, List.mem_of_find?_eq_some hf,
      (Option.some_injective _ h2).symm⟩

/-- The key multiset of the join: the left keys that occur on the right,
in left order. -/
theorem joinRows_map_keys (rows1 rows2 : List Row) (u : List String)
    (h1 : ∀ r1 ∈ rows1, (r1.find? (fun p => p.1 == NORMALIZED_NAME_COLUMN)).isSome) :
    (joinRows rows1 rows2 u).map rowKey
      = (rows1.map rowKey).filter
          (fun k => decide (k ∈ rows2.map rowKey)) := by
  induction rows1 with
  | nil => rfl
  | cons r1 t ih =>
    have hr1 := h1 r1 (List.mem_cons_self _ _)
    have ht : ∀ r ∈ t, (r.find? (fun p => p.1 == NORMALIZED_NAME_COLUMN)).isSome :=
      fun r hr => h1 r (List.mem_cons_of_mem _ hr)
    unfold joinRows
    rw [List.filterMap_cons]
    rcases hf : rows2.find? (fun r2 => rowKey r2 == rowKey r1) with _ | r2
    · have hnm : rowKey r1 ∉ rows2.map rowKey := by
        intro hmem
        rcases List.mem_map.1 hmem with ⟨r2, hr2, hk2⟩
        have h5 := List.find?_eq_none.1 hf r2 hr2
        rw [hk2] at h5
        simp at h5
      have hjr : joinRows t rows2 u
          = t.filterMap (fun r3 =>
              match rows2.find? (fun r2 => rowKey r2 == rowKey r3) with
              | some r2 => some (r3 ++ restrictRow u r2)
              | none => none) := rfl
      rw [← hjr, ih ht]
      rw [List.map_cons, List.filter_cons]
      simp [hnm]
    · have hmm : rowKey r1 ∈ rows2.map rowKey := by
        have h5 := List.find?_some hf
        have h6 := List.mem_of_find?_eq_some hf
        rw [beq_iff_eq] at h5
        rw [← h5]
        exact List.mem_map_of_mem rowKey h6
      have hjr : joinRows t rows2 u
          = t.filterMap (fun r3 =>
              match rows2.find? (fun r2 => rowKey r2 == rowKey r3) with
              | some r2 => some (r3 ++ restrictRow u r2)
              | none => none) := rfl
      rw [List.map_cons]
      rw [List.map_cons, List.filter_cons]
      rw [← hjr, ih ht]
      rw [rowKey_append_left r1 _ hr1]
      simp [hmm]

/-- C5: the joiner first keeps, inside each set, only the first row of each
canonical key (keys pairwise distinct afterwards, the survivor being the
first valid row of the original order with that key); the join yields
exactly one output row per canonical key present in both prepared sets; on
the columns of the first set every output row carries the first set values
(the second set versions of shared names are discarded, not suffixed); the
output schema is the first schema followed by the columns unique to the
second set; and the temporary canonical-key column is absent. -/
theorem c5_join_semantics (dfA dfB : DF) (mc : String)
    (hA : mc ∈ dfA.cols) (hB : mc ∈ dfB.cols)
    (hnA : NORMALIZED_NAME_COLUMN ∉ dfA.cols)
    (hnB : NORMALIZED_NAME_COLUMN ∉ dfB.cols)
    (hrA : ∀ r ∈ dfA.rows, ∀ p ∈ r, p.1 ≠ NORMALIZED_NAME_COLUMN)
    (hne1 : (prepare_for_merge dfA mc).rows ≠ [])
    (hne2 : (prepare_for_merge dfB mc).rows ≠ []) :
    ((prepare_for_merge dfA mc).rows.map rowKey).Nodup ∧
    ((prepare_for_merge dfB mc).rows.map rowKey).Nodup ∧
    (∀ k : Cell, (prepare_for_merge dfA mc).rows.find? (fun r => rowKey r == k)
      = ((dfA.rows.map (addNorm mc)).filter (fun r => (rowKey r).isSome)).find?
          (fun r => rowKey r == k)) ∧
    ((joinRows (prepare_for_merge dfA mc).rows (prepare_for_merge dfB mc).rows
        (df2UniqueCols (prepare_for_merge dfA mc) (prepare_for_merge dfB mc))).map rowKey
      = ((prepare_for_merge dfA mc).rows.map rowKey).filter
          (fun k => decide (k ∈ (prepare_for_merge dfB mc).rows.map rowKey)) ∧
      ((joinRows (prepare_for_merge dfA mc).rows (prepare_for_merge dfB mc).rows
        (df2UniqueCols (prepare_for_merge dfA mc) (prepare_for_merge dfB mc))).map
          rowKey).Nodup ∧
      (mergePipeline dfA dfB mc).rows.length
        = (joinRows (prepare_for_merge dfA mc).rows (prepare_for_merge dfB mc).rows
            (df2UniqueCols (prepare_for_merge dfA mc) (prepare_for_merge dfB mc))).length) ∧
    (∀ j ∈ (mergePipeline dfA dfB mc).rows, ∃ r0 ∈ dfA.rows,
      ∀ cnm ∈ dfA.cols, getCell j cnm = getCell r0 cnm) ∧
    ((mergePipeline dfA dfB mc).cols
      = dfA.cols ++ dfB.cols.filter
          (fun cnm => !dfA.cols.contains cnm && cnm != NORMALIZED_NAME_COLUMN) ∧
      NORMALIZED_NAME_COLUMN ∉ (mergePipeline dfA dfB mc).cols) := by
  have hshapeA := prepare_rows_shape dfA mc hA hrA
  have hfindA : ∀ r1 ∈ (prepare_for_merge dfA mc).rows,
      (r1.find? (fun p => p.1 == NORMALIZED_NAME_COLUMN)).isSome := by
    intro r1 h1
    obtain ⟨r0, hr0, k, hsh, -⟩ := hshapeA r1 h1
    rw [hsh, find?_norm_of_shape r0 _ (hrA r0 hr0)]
    rfl
  have he1 : (prepare_for_merge dfA mc).rows.isEmpty = false := by
    rcases h : (prepare_for_merge dfA mc).rows with _ | ⟨x, t⟩
    · exact absurd h hne1
    · rfl
  have he2 : (prepare_for_merge dfB mc).rows.isEmpty = false := by
    rcases h : (prepare_for_merge dfB mc).rows with _ | ⟨x, t⟩
    · exact absurd h hne2
    · rfl
  have hM : mergePipeline dfA dfB mc =
      dropColDF NORMALIZED_NAME_COLUMN
        ⟨(prepare_for_merge dfA mc).cols
            ++ df2UniqueCols (prepare_for_merge dfA mc) (prepare_for_merge dfB mc),
          joinRows (prepare_for_merge dfA mc).rows (prepare_for_merge dfB mc).rows
            (df2UniqueCols (prepare_for_merge dfA mc) (prepare_for_merge dfB mc))⟩ := by
    unfold mergePipeline merge_dataframes
    rw [he1, he2]
    rfl
  have hkeysJ := joinRows_map_keys (prepare_for_merge dfA mc).rows
    (prepare_for_merge dfB mc).rows
    (df2UniqueCols (prepare_for_merge dfA mc) (prepare_for_merge dfB mc)) hfindA
  refine ⟨prepare_keys_nodup dfA mc, prepare_keys_nodup dfB mc,
    prepare_keep_first dfA mc hA, ⟨hkeysJ, ?_, ?_⟩, ?_, ?_, ?_⟩
  · rw [hkeysJ]
    exact (prepare_keys_nodup dfA mc).filter _
  · rw [hM]
    simp only [dropColDF]
    exact List.length_map _ _
  · intro j hj
    rw [hM] at hj
    simp only [dropColDF] at hj
    rcases List.mem_map.1 hj with ⟨jr, hjr, rfl⟩
    obtain ⟨r1, h1, r2, h2, rfl⟩ := joinRows_mem _ _ _ jr hjr
    obtain ⟨r0, hr0, k, hsh, -⟩ := hshapeA r1 h1
    refine ⟨r0, hr0, ?_⟩
    intro cnm hcnm
    have hcne : cnm ≠ NORMALIZED_NAME_COLUMN := fun he => hnA (he ▸ hcnm)
    rw [getCell_filter_ne _ _ _ hcne]
    have hcnu : cnm ∉ df2UniqueCols (prepare_for_merge dfA mc)
        (prepare_for_merge dfB mc) := by
      intro hmem
      unfold df2UniqueCols at hmem
      rw [List.mem_filter] at hmem
      obtain ⟨-, hcond⟩ := hmem
      have hcon : (prepare_for_merge dfA mc).cols.contains cnm = true := by
        rw [prepare_cols dfA mc hA]
        simp [hcnm]
      rw [hcon] at hcond
      simp at hcond
    rw [getCell_append_right_nofind _ _ _ (find?_restrict_not_mem _ r2 cnm hcnu)]
    rw [hsh]
    rw [getCell_append_right_nofind]
    apply List.find?_eq_none.2
    intro p hp
    rw [List.mem_singleton] at hp
    rw [hp]
    simp only [beq_iff_eq]
    exact fun he => hcne he.symm
  · rw [hM]
    simp only [dropColDF]
    rw [List.filter_append]
    have hfA : (prepare_for_merge dfA mc).cols.filter
        (fun x => x != NORMALIZED_NAME_COLUMN) = dfA.cols := by
      rw [prepare_cols dfA mc hA, List.filter_append]
      have h1 : dfA.cols.filter (fun x => x != NORMALIZED_NAME_COLUMN) = dfA.cols := by
        rw [List.filter_eq_self]
        intro x hx
        simp only [bne_iff_ne, ne_eq]
        exact fun he => hnA (he ▸ hx)
      have h2 : ([NORMALIZED_NAME_COLUMN].filter
          (fun x => x != NORMALIZED_NAME_COLUMN)) = ([] : List String) := by
        simp
      rw [h1, h2, List.append_nil]
    have hfu : (df2UniqueCols (prepare_for_merge dfA mc)
          (prepare_for_merge dfB mc)).filter
        (fun x => x != NORMALIZED_NAME_COLUMN)
        = df2UniqueCols (prepare_for_merge dfA mc) (prepare_for_merge dfB mc) := by
      rw [List.filter_eq_self]
      intro x hx
      unfold df2UniqueCols at hx
      rw [List.mem_filter] at hx
      have h4 := hx.2
      rw [Bool.and_eq_true] at h4
      exact h4.2
    rw [hfA, hfu]
    unfold df2UniqueCols
    rw [prepare_cols dfB mc hB, prepare_cols dfA mc hA, List.filter_append]
    have h3 : ([NORMALIZED_NAME_COLUMN].filter
        (fun c => !(dfA.cols ++ [NORMALIZED_NAME_COLUMN]).contains c
          && c != NORMALIZED_NAME_COLUMN)) = ([] : List String) := by
      simp
    rw [h3, List.append_nil]
    congr 1
    apply List.filter_congr
    intro x hx
    have hxn : x ≠ NORMALIZED_NAME_COLUMN := fun he => hnB (he ▸ hx)
    have hc2 : (dfA.cols ++ [NORMALIZED_NAME_COLUMN]).contains x
        = dfA.cols.contains x := by
      by_cases hm : x ∈ dfA.cols
      · have h4 : x ∈ dfA.cols ++ [NORMALIZED_NAME_COLUMN] := List.mem_append.2 (Or.inl hm)
        simp [hm, h4]
      · have h4 : x ∉ dfA.cols ++ [NORMALIZED_NAME_COLUMN] := by
          intro h5
          rcases List.mem_append.1 h5 with h6 | h6
          · exact hm h6
          · exact hxn (List.mem_singleton.1 h6)
        simp [hm, h4]
    rw [hc2]
  · rw [hM]
    simp only [dropColDF]
    intro hmem
    rw [List.mem_filter] at hmem
    simp at hmem

/-- Witness for C5 on two concrete record sets with a duplicate key, a
shared column name and an unmatched key on each side. -/
theorem c5_join_semantics_witness :
    ("molecule_name" ∈ dfW1.cols ∧ "molecule_name" ∈ dfW2.cols ∧
      NORMALIZED_NAME_COLUMN ∉ dfW1.cols ∧ NORMALIZED_NAME_COLUMN ∉ dfW2.cols ∧
      (∀ r ∈ dfW1.rows, ∀ p ∈ r, p.1 ≠ NORMALIZED_NAME_COLUMN) ∧
      (prepare_for_merge dfW1 "molecule_name").rows ≠ [] ∧
      (prepare_for_merge dfW2 "molecule_name").rows ≠ []) ∧
    ((mergePipeline dfW1 dfW2 "molecule_name").cols
      = dfW1.cols ++ dfW2.cols.filter
          (fun cnm => !dfW1.cols.contains cnm && cnm != NORMALIZED_NAME_COLUMN) ∧
      NORMALIZED_NAME_COLUMN ∉ (mergePipeline dfW1 dfW2 "molecule_name").cols) :=
  ⟨⟨by decide, by decide, by decide, by decide, by decide, by decide, by decide⟩,
    (c5_join_semantics dfW1 dfW2 "molecule_name" (by decide) (by decide) (by decide)
      (by decide) (by decide) (by decide) (by decide)).2.2.2.2.2⟩

end DJoin

end Wuke
